import Mathlib

/-!
# Verification of a minimal proof-of-work blockchain node

Shallow embedding of the consensus/propagation core of a Rust blockchain
node: the Merkle tree (`src/types/merkle.rs`), the chain store
(`src/blockchain/mod.rs`), the mempool (`src/types/transaction.rs`), the
miner loop (`src/miner/mod.rs`) and the network worker's block handler
(`src/network/worker.rs`).

Bytes are `Nat`s kept below 256 by construction; a digest (`H256`) is a
list of bytes.  All machine arithmetic that can overflow in the source is
modelled explicitly (`% 2^32` where Rust wraps, `Option` where a Rust
debug build panics).  `ring::digest::SHA256` is embedded as an executable
`sha256` below.
-/

/-! ## SHA-256 (executable embedding of `ring::digest::SHA256`) -/

def add32 (a b : Nat) : Nat := Nat.mod (Nat.add a b) 4294967296

def rotr32 (n x : Nat) : Nat :=
  Nat.mod (Nat.lor (Nat.shiftRight x n) (Nat.shiftLeft x (Nat.sub 32 n))) 4294967296

def shr32 (n x : Nat) : Nat := Nat.shiftRight x n

def xor3 (a b c : Nat) : Nat := Nat.xor (Nat.xor a b) c

def bigSigma0 (x : Nat) : Nat := xor3 (rotr32 2 x) (rotr32 13 x) (rotr32 22 x)

def bigSigma1 (x : Nat) : Nat := xor3 (rotr32 6 x) (rotr32 11 x) (rotr32 25 x)

def smallSigma0 (x : Nat) : Nat := xor3 (rotr32 7 x) (rotr32 18 x) (shr32 3 x)

def smallSigma1 (x : Nat) : Nat := xor3 (rotr32 17 x) (rotr32 19 x) (shr32 10 x)

def chFn (x y z : Nat) : Nat := Nat.xor (Nat.land x y) (Nat.land (Nat.xor x 4294967295) z)

def majFn (x y z : Nat) : Nat :=
  Nat.xor (Nat.xor (Nat.land x y) (Nat.land x z)) (Nat.land y z)

def sha256K : List Nat :=
  [1116352408, 1899447441, 3049323471, 3921009573, 961987163, 1508970993, 2453635748, 2870763221,
   3624381080, 310598401, 607225278, 1426881987, 1925078388, 2162078206, 2614888103, 3248222580,
   3835390401, 4022224774, 264347078, 604807628, 770255983, 1249150122, 1555081692, 1996064986,
   2554220882, 2821834349, 2952996808, 3210313671, 3336571891, 3584528711, 113926993, 338241895,
   666307205, 773529912, 1294757372, 1396182291, 1695183700, 1986661051, 2177026350, 2456956037,
   2730485921, 2820302411, 3259730800, 3345764771, 3516065817, 3600352804, 4094571909, 275423344,
   430227734, 506948616, 659060556, 883997877, 958139571, 1322822218, 1537002063, 1747873779,
   1955562222, 2024104815, 2227730452, 2361852424, 2428436474, 2756734187, 3204031479, 3329325298]

def sha256Init : List Nat :=
  [1779033703, 3144134277, 1013904242, 2773480762, 1359893119, 2600822924, 528734635, 1541459225]

/-- Big-endian byte decomposition of `n` into `w` bytes. -/
def natBE (w n : Nat) : List Nat :=
  match w with
  | 0 => []
  | w + 1 => natBE w (n / 256) ++ [n % 256]

/-- Group a byte stream into big-endian 32-bit words. -/
def toWords : List Nat → List Nat
  | a :: b :: c :: d :: rest => (((a * 256 + b) * 256 + c) * 256 + d) :: toWords rest
  | _ => []

/-- Force a `Nat` to a literal before substituting it (keeps intermediate
hash state small under kernel reduction). -/
def forceN {a : Type} (n : Nat) (f : Nat → a) : a :=
  match n with
  | Nat.zero => f Nat.zero
  | Nat.succ m => f (Nat.succ m)

/-- Extend the 16 message words to the 64-entry schedule (loop `for t in 16..64`,
written with the remaining iteration count as structural fuel).  The schedule
is kept in reverse order, so `w[t-2]`, `w[t-7]`, `w[t-15]`, `w[t-16]` are the
entries at constant offsets 1, 6, 14 and 15 from the front. -/
def buildWAux : Nat → List Nat → List Nat
  | 0, rw => rw
  | k + 1, rw =>
    forceN (add32 (add32 (smallSigma1 (rw.getD 1 0)) (rw.getD 6 0))
                  (add32 (smallSigma0 (rw.getD 14 0)) (rw.getD 15 0)))
      (fun x => buildWAux k (x :: rw))

def buildW (w : List Nat) : List Nat := (buildWAux 48 w.reverse).reverse

def compressRound (s : Nat × Nat × Nat × Nat × Nat × Nat × Nat × Nat) (kw : Nat × Nat) :
    Nat × Nat × Nat × Nat × Nat × Nat × Nat × Nat :=
  match s with
  | (a, b, c, d, e, f, g, h) =>
    forceN (add32 h (add32 (bigSigma1 e) (add32 (chFn e f g) (add32 kw.1 kw.2)))) (fun t1 =>
    forceN (add32 (bigSigma0 a) (majFn a b c)) (fun t2 =>
    forceN (add32 t1 t2) (fun a2 =>
    forceN (add32 d t1) (fun e2 =>
    (a2, a, b, c, e2, e, f, g)))))

def compressBlock (hv : List Nat) (block : List Nat) : List Nat :=
  let w := buildW (toWords block)
  let s0 := (hv.getD 0 0, hv.getD 1 0, hv.getD 2 0, hv.getD 3 0,
             hv.getD 4 0, hv.getD 5 0, hv.getD 6 0, hv.getD 7 0)
  let s := (sha256K.zip w).foldl compressRound s0
  match s with
  | (a, b, c, d, e, f, g, h) =>
    [add32 a (hv.getD 0 0), add32 b (hv.getD 1 0), add32 c (hv.getD 2 0), add32 d (hv.getD 3 0),
     add32 e (hv.getD 4 0), add32 f (hv.getD 5 0), add32 g (hv.getD 6 0), add32 h (hv.getD 7 0)]

/-- SHA-256 padding: `128`, zeros, then the 64-bit big-endian bit length. -/
def padMsg (msg : List Nat) : List Nat :=
  msg ++ [128] ++ List.replicate ((64 + 56 - ((msg.length + 1) % 64)) % 64) 0
      ++ natBE 8 (msg.length * 8)

/-- Split into 64-byte blocks; a nonempty list loses at least one element per
step, so its length is enough structural fuel. -/
def chunks64Aux : Nat → List Nat → List (List Nat)
  | 0, _ => []
  | fuel + 1, l => if l.length = 0 then [] else l.take 64 :: chunks64Aux fuel (l.drop 64)

def chunks64 (l : List Nat) : List (List Nat) := chunks64Aux l.length l

/-- SHA-256 of a byte list, producing the 32 digest bytes. -/
def sha256 (msg : List Nat) : List Nat :=
  ((chunks64 (padMsg msg)).foldl compressBlock sha256Init).foldr
    (fun w acc => natBE 4 w ++ acc) []

theorem sha256_empty_vector :
    sha256 [] =
      [227, 176, 196, 66, 152, 252, 28, 20, 154, 251, 244, 200, 153, 111, 185,
       36, 39, 174, 65, 228, 100, 155, 147, 76, 164, 149, 153, 27, 120, 82,
       184, 85] := by decide

theorem sha256_abc_vector :
    sha256 [97, 98, 99] =
      [186, 120, 22, 191, 143, 1, 207, 234, 65, 65, 64, 222, 93, 174, 34,
       35, 176, 3, 97, 163, 150, 23, 122, 156, 180, 16, 255, 97, 242, 0,
       21, 173] := by decide

/-! ## Digests and association-list maps

`src/types/hash.rs` is not part of the sources; the digest type is
modelled from the spec (§3): a 32-byte value with a total order, compared
byte-lexicographically, serving as map key. -/

/-- A digest: a list of bytes (32 by construction wherever the code builds one). -/
abbrev H256 := List Nat

/-- The 32-byte all-zero buffer (empty-tree marker). -/
def zeros32 : H256 := List.replicate 32 0

/-- The 32-byte all-ones value `[255u8; 32]` (genesis-parent sentinel and
genesis difficulty). -/
def ones32 : H256 := List.replicate 32 255

/-- Modelled from the spec: the total order on digests (`hash ≤ difficulty`),
byte-lexicographic as for a 32-byte big-endian integer. -/
def leBytes : H256 → H256 → Bool
  | [], [] => true
  | [], _ :: _ => true
  | _ :: _, [] => false
  | a :: as, b :: bs => if a < b then true else if b < a then false else leBytes as bs

/-- `HashMap` embedding: an association list with at most one entry per key.
`HashMap` iteration order is unspecified in Rust; this model fixes
most-recently-inserted-first. -/
def mapErase (k : H256) (m : List (H256 × α)) : List (H256 × α) :=
  m.filter (fun p => p.1 ≠ k)

def mapInsert (k : H256) (v : α) (m : List (H256 × α)) : List (H256 × α) :=
  (k, v) :: mapErase k m

def mapFind? (k : H256) (m : List (H256 × α)) : Option α :=
  (m.find? (fun p => p.1 = k)).map (·.2)

def mapContains (k : H256) (m : List (H256 × α)) : Bool :=
  (mapFind? k m).isSome

/-! ## Merkle tree (`src/types/merkle.rs`)

The `tree` field is the flattened array holding all levels bottom-to-top.
The genericity over `T: Hashable` becomes an explicit leaf-hash function.
Vector indexing in `new` is `getD` (never out of bounds during
construction); `proof` models Rust debug-build panics (index out of
bounds, `usize` underflow) as `none`. -/

structure MerkleTree where
  tree : List H256
  num_leaves : Nat
deriving DecidableEq, Repr

/-- `ctx.update(left); ctx.update(right); ctx.finish()` on a fresh context. -/
def merkleCombine (a b : H256) : H256 := sha256 (a ++ b)

/-- One `while cur_len > 1` iteration of `MerkleTree::new`: combine adjacent
pairs of the current layer, duplicating a trailing node when the next layer
would be odd.  `cur_len` strictly decreases, so it serves as fuel. -/
def merkleBuildAux : Nat → List H256 → Nat → Nat → List H256
  | 0, tree, _, _ => tree
  | fuel + 1, tree, start, cur_len =>
    if cur_len ≤ 1 then tree
    else
      let half := cur_len / 2
      let tree1 := tree ++ (List.range half).map
        (fun i => merkleCombine (tree.getD (start + 2 * i) []) (tree.getD (start + 2 * i + 1) []))
      let tree2 := if half % 2 = 1 then tree1 ++ [tree1.getLast?.getD []] else tree1
      let cl := cur_len / 2
      merkleBuildAux fuel tree2 (start + cur_len) (if cl % 2 = 1 ∧ cl ≠ 1 then cl + 1 else cl)

def MerkleTree.new (hashFn : α → H256) (data : List α) : MerkleTree :=
  if data.length = 0 then { tree := [zeros32], num_leaves := 0 }
  else
    let leaves := data.map hashFn
    let padded :=
      if data.length % 2 = 1 ∧ data.length ≠ 1
      then (leaves ++ [leaves.getLast?.getD []], data.length + 1)
      else (leaves, data.length)
    { tree := merkleBuildAux padded.2 padded.1 0 padded.2, num_leaves := padded.2 }

/-- `root()` returns the last element of the flattened tree (`none` models the
panic on an empty vector, which `new` never produces). -/
def MerkleTree.root? (t : MerkleTree) : Option H256 := t.tree.getLast?

/-- The `while self.tree.len() > cur` height loop (`cur` starts at 1 and
doubles); iteration count is bounded by `len`, used as fuel. -/
def heightAux : Nat → Nat → Nat → Nat → Nat
  | 0, _, _, h => h
  | fuel + 1, len, cur, h => if len > cur then heightAux fuel len (cur * 2) (h + 1) else h

def heightOf (len : Nat) : Nat := heightAux len len 1 0

/-- The `for i in 0..height-1` loop of `proof`; the first component of the
state is the remaining iteration count. -/
def proofAux (tree : List H256) (numLeaves height : Nat) :
    Nat → Nat → Nat → Nat → List H256 → Option (List H256)
  | 0, _, _, _, acc => some acc
  | k + 1, i, curIndex, sequence, acc =>
    if curIndex < sequence then none
    else
      let group := (curIndex - sequence) / 2
      match (if curIndex % 2 = 1 then tree.get? (curIndex - 1) else tree.get? (curIndex + 1)) with
      | none => none
      | some sib =>
        let seq' := if i = 0 then sequence + numLeaves else sequence + 2 ^ (height - i)
        proofAux tree numLeaves height k (i + 1) (seq' + group) seq' (acc ++ [sib])

/-- `MerkleTree::proof`.  `index > num_leaves` returns an empty proof; a tree
with a single stored node has `height = 0` and the loop bound `height - 1`
underflows `u32` (debug-build panic, modelled as `none`). -/
def MerkleTree.proof (t : MerkleTree) (index : Nat) : Option (List H256) :=
  if index > t.num_leaves then some []
  else
    let height := heightOf t.tree.length
    if height = 0 then none
    else proofAux t.tree t.num_leaves height (height - 1) 0 index 0 []

/-- The `for i in 0..height` loop of `verify`.  The single `digest::Context`
is created outside the loop and only cloned at each `finish`, so its byte
accumulator `ctx` carries over between iterations. -/
def verifyAux (height leafNum : Nat) :
    List H256 → Nat → Nat → Nat → List Nat → H256 → Option H256
  | [], _, _, _, _, trace => some trace
  | p :: rest, i, curIndex, sequence, ctx, trace =>
    if curIndex < sequence then none
    else
      let group := (curIndex - sequence) / 2
      let ctx' := if curIndex % 2 = 1 then ctx ++ p ++ trace else ctx ++ trace ++ p
      let trace' := sha256 ctx'
      let seq' := if i = 0 then sequence + leafNum else sequence + 2 ^ (height - i)
      verifyAux height leafNum rest (i + 1) (seq' + group) seq' ctx' trace'

/-- `verify(root, datum, proof, index, leaf_size)`.  `usize` subtractions that
would underflow in a debug build are modelled as `none`. -/
def verify (root datum : H256) (proof : List H256) (index leafSize : Nat) : Option Bool :=
  let height := proof.length
  if 2 ^ (height + 1) - 1 < leafSize then none
  else if 2 ^ height < 2 ^ (height + 1) - 1 - leafSize then none
  else
    let leafNum := 2 ^ height - (2 ^ (height + 1) - 1 - leafSize)
    match verifyAux height leafNum proof 0 index 0 [] datum with
    | none => none
    | some trace => some (trace = root)

/-! ## Transactions and the mempool (`src/types/transaction.rs`)

`src/types/address.rs` is not under the sources; modelled from the spec
(§3): an `Address` is a fixed-width byte value.  The digest of a
transaction (`SignedTransaction: Hashable`, SHA-256 of its `bincode`
serialization) depends on the external `bincode` crate, so the concrete
serialization is modelled separately (`txBytesModel`); mempool and miner
are parametric in the transaction-hash function. -/

abbrev Address := List Nat

structure Transaction where
  sender : Address
  receiver : Address
  value : Nat
deriving DecidableEq, Repr

structure SignedTransaction where
  transaction : Transaction
  signature : List Nat
  public_key : List Nat
deriving DecidableEq, Repr

structure Mempool where
  tx_map : List (H256 × SignedTransaction)
deriving DecidableEq, Repr

def Mempool.insert (hashTx : SignedTransaction → H256) (mp : Mempool)
    (tx : SignedTransaction) : Mempool :=
  let txHash := hashTx tx
  if ¬ mapContains txHash mp.tx_map then { tx_map := mapInsert txHash tx mp.tx_map } else mp

/-- `Mempool::remove` exactly as written: the guard is
`if !self.tx_map.contains_key(&tx_hash)` — it removes only when the key is
absent. -/
def Mempool.remove (hashTx : SignedTransaction → H256) (mp : Mempool)
    (tx : SignedTransaction) : Mempool :=
  let txHash := hashTx tx
  if ¬ mapContains txHash mp.tx_map then { tx_map := mapErase txHash mp.tx_map } else mp

/-! ## Blocks and the blockchain (`src/types/block.rs`, `src/blockchain/mod.rs`)

A block's identity is the digest of its header.  The concrete digest
(SHA-256 over the header's `bincode` bytes, via the missing
`src/types/hash.rs`) is modelled below as `hashHeaderModel`; the chain
operations are parametric in `hashB : Header → H256`. -/

structure Header where
  parent : H256
  nonce : Nat
  difficulty : H256
  timestamp : Nat
  merkle_root : H256
deriving DecidableEq, Repr

structure Block where
  header : Header
  data : List SignedTransaction
deriving DecidableEq, Repr

def Block.get_parent (b : Block) : H256 := b.header.parent

def Block.get_difficulty (b : Block) : H256 := b.header.difficulty

/-- Little-endian byte decomposition of `n` into `w` bytes. -/
def natLE (w n : Nat) : List Nat :=
  match w with
  | 0 => []
  | w + 1 => n % 256 :: natLE w (n / 256)

/-- Modelled from the spec: `bincode` (fixed-width little-endian integers,
fields in declaration order, a 32-byte digest as a plain 32-byte array)
serialization of a `Header`; `bincode` and the `H256` serde instance live
outside the sources. -/
def headerBytes (h : Header) : List Nat :=
  h.parent ++ natLE 4 h.nonce ++ h.difficulty ++ natLE 4 h.timestamp ++ h.merkle_root

/-- Modelled from the spec: block identity is `hash(Header)`, the SHA-256
digest of the serialized header (`impl Hashable for Header`). -/
def hashHeaderModel (h : Header) : H256 := sha256 (headerBytes h)

/-- Modelled from the spec: `bincode` serialization of a `SignedTransaction`
(`Vec<u8>` gets a little-endian `u64` length prefix). -/
def txBytesModel (t : SignedTransaction) : List Nat :=
  t.transaction.sender ++ t.transaction.receiver ++ [t.transaction.value]
    ++ natLE 8 t.signature.length ++ t.signature
    ++ natLE 8 t.public_key.length ++ t.public_key

/-- Modelled from the spec: `impl Hashable for SignedTransaction` is SHA-256
of the serialized transaction. -/
def hashTxModel (t : SignedTransaction) : H256 := sha256 (txBytesModel t)

structure Blockchain where
  block_map : List (H256 × Block)
  block_heights : List (H256 × Nat)
  latest_block : H256
deriving DecidableEq, Repr

/-- The Merkle root of the empty transaction list, used by the genesis block
(`MerkleTree::new(&Vec::<H256>::new()).root()`). -/
def emptyMerkleRoot : H256 :=
  ((MerkleTree.new (fun h : H256 => h) ([] : List H256)).root?).getD []

def genesisHeader : Header :=
  { parent := ones32, nonce := 0, difficulty := ones32, timestamp := 0,
    merkle_root := emptyMerkleRoot }

def genesisBlock : Block := { header := genesisHeader, data := [] }

def genesisHash (hashB : Header → H256) : H256 := hashB genesisHeader

/-- `Blockchain::new`: genesis block with the all-ones sentinel parent, nonce
0, all-ones difficulty, timestamp 0 and the empty-tree Merkle root. -/
def Blockchain.new (hashB : Header → H256) : Blockchain :=
  { block_map := mapInsert (genesisHash hashB) genesisBlock [],
    block_heights := mapInsert (genesisHash hashB) 0 [],
    latest_block := genesisHash hashB }

/-- `Blockchain::insert`, in source order: store the block, read the parent's
height (panic — `none` — when absent), store the new height, then advance
the tip when the new height strictly exceeds the current tip's height (read
from the updated height index; panic when the tip key is absent). -/
def Blockchain.insert (hashB : Header → H256) (c : Blockchain) (b : Block) :
    Option Blockchain :=
  let parent := b.header.parent
  let h := hashB b.header
  let bm := mapInsert h b c.block_map
  match mapFind? parent c.block_heights with
  | none => none
  | some parentHeight =>
    let newHeight := parentHeight + 1
    let hs := mapInsert h newHeight c.block_heights
    match mapFind? c.latest_block hs with
    | none => none
    | some tipHeight =>
      some { block_map := bm, block_heights := hs,
             latest_block := if newHeight > tipHeight then h else c.latest_block }

def Blockchain.tip (c : Blockchain) : H256 := c.latest_block

/-- The `while genesis_parent != curr_block_hash` walk of
`all_blocks_in_longest_chain`, fuel-bounded: a terminating run visits
pairwise distinct keys of `block_map`, so `block_map.length + 1` steps
suffice; a missing key (Rust index panic) or exhausted fuel is `none`. -/
def walkFrom (m : List (H256 × Block)) : Nat → H256 → Option (List H256)
  | 0, _ => none
  | fuel + 1, cur =>
    if cur = ones32 then some []
    else
      match mapFind? cur m with
      | none => none
      | some b => (walkFrom m fuel b.header.parent).map (cur :: ·)

/-- `all_blocks_in_longest_chain`: walk parent links from the tip to the
genesis sentinel, then reverse. -/
def Blockchain.all_blocks_in_longest_chain (c : Blockchain) : Option (List H256) :=
  (walkFrom c.block_map (c.block_map.length + 1) c.latest_block).map List.reverse

/-! ## Miner (`src/miner/mod.rs`, one unit of work of `miner_loop`)

The loop body under `OperatingState::Run`: read the tip, and when the
mempool holds at least 10 transactions, drain them into a candidate block,
insert it into the chain, and hand it to the finished-block channel only
when its hash satisfies the difficulty.  The timestamp source
(`SystemTime::now().elapsed().subsec_millis()`) is the parameter `ts`; the
result is `(chain, mempool, finished-block channel message)`, with `none`
for a panic (missing tip key, missing parent, `u32` nonce overflow in a
debug build). -/

def minerStep (hashTx : SignedTransaction → H256) (hashB : Header → H256) (ts : Nat)
    (c : Blockchain) (mp : Mempool) : Option (Blockchain × Mempool × Option Block) :=
  let latestBlockHash := c.tip
  match mapFind? latestBlockHash c.block_map with
  | none => none
  | some latestBlock =>
    if mp.tx_map.length ≥ 10 then
      let signedTxs := mp.tx_map.map (·.2)
      let mp' := signedTxs.foldl (fun m t => Mempool.remove hashTx m t) mp
      if signedTxs ≠ [] then
        if latestBlock.header.nonce + 1 ≥ 4294967296 then none
        else
          let merkleTree := MerkleTree.new hashTx signedTxs
          match merkleTree.root? with
          | none => none
          | some merkleRoot =>
            let header : Header :=
              { parent := latestBlockHash, nonce := latestBlock.header.nonce + 1,
                difficulty := latestBlock.get_difficulty, timestamp := ts % 4294967296,
                merkle_root := merkleRoot }
            let newBlock : Block := { header := header, data := signedTxs }
            match c.insert hashB newBlock with
            | none => none
            | some c' =>
              some (c', mp',
                if leBytes (hashB newBlock.header) newBlock.get_difficulty
                then some newBlock else none)
      else some (c, mp', none)
    else some (c, mp, none)

/-! ## Network worker (`src/network/worker.rs`)

Wire messages, and the handler for one decoded message against the shared
chain and orphan buffer.  Outputs are the ordered lists of `peer.write`
replies and `server.broadcast` calls; `none` models a worker panic
(`unimplemented!` arms, or a chain insert whose parent is absent). -/

inductive Message where
  | Ping : Nat → Message
  | Pong : String → Message
  | NewBlockHashes : List H256 → Message
  | GetBlocks : List H256 → Message
  | Blocks : List Block → Message
  | NewTransactionHashes : List H256 → Message
deriving DecidableEq, Repr

/-- The orphan-promotion loop inside the `Blocks` arm: while the orphan
buffer holds a block keyed by the current hash, remove it, insert it into
the chain, record its hash, broadcast it immediately, and continue from its
hash.  Each iteration removes one buffer entry, so the buffer size bounds
the iteration count (used as fuel). -/
def promoteLoop (hashB : Header → H256) :
    Nat → Blockchain → List (H256 × Block) → H256 → List H256 → List Message →
    Option (Blockchain × List (H256 × Block) × H256 × List H256 × List Message)
  | 0, _, _, _, _, _ => none
  | fuel + 1, c, orphans, h, newBlocks, bcasts =>
    match mapFind? h orphans with
    | none => some (c, orphans, h, newBlocks, bcasts)
    | some orphanBlock =>
      let orphans' := mapErase h orphans
      match c.insert hashB orphanBlock with
      | none => none
      | some c' =>
        promoteLoop hashB fuel c' orphans' (hashB orphanBlock.header)
          (newBlocks ++ [hashB orphanBlock.header])
          (bcasts ++ [Message.NewBlockHashes [hashB orphanBlock.header]])

/-- Accumulator for the `Blocks` arm: chain, orphan buffer, missing-parent
hashes, `new_blocks`, and the broadcasts already emitted inside the loop. -/
structure BlocksAcc where
  chain : Blockchain
  orphans : List (H256 × Block)
  missing : List H256
  newBlocks : List H256
  bcasts : List Message
deriving DecidableEq, Repr

/-- The per-block body of `for block in blocks` in the `Blocks` arm. -/
def processOneBlock (hashB : Header → H256) (acc : BlocksAcc) (b : Block) :
    Option BlocksAcc :=
  let difficulty := b.get_difficulty
  let h := hashB b.header
  if mapContains h acc.chain.block_map then some acc
  else
    let parentBlockHash := b.get_parent
    if ¬ mapContains parentBlockHash acc.chain.block_map then
      some { acc with
             missing := acc.missing ++ [parentBlockHash],
             orphans := mapInsert parentBlockHash b acc.orphans,
             newBlocks := acc.newBlocks ++ [h] }
    else
      match mapFind? parentBlockHash acc.chain.block_map with
      | none => none
      | some parentBlock =>
        let parentDifficulty := parentBlock.get_difficulty
        match (if leBytes h difficulty ∧ difficulty = parentDifficulty
               then acc.chain.insert hashB b else some acc.chain) with
        | none => none
        | some c1 =>
          match promoteLoop hashB (acc.orphans.length + 1) c1 acc.orphans h
                  acc.newBlocks acc.bcasts with
          | none => none
          | some (c2, orphans2, h2, newBlocks2, bcasts2) =>
            some { chain := c2, orphans := orphans2, missing := acc.missing,
                   newBlocks := newBlocks2 ++ [h2], bcasts := bcasts2 }

/-- The `Message::Blocks` arm: process each delivered block, then request all
missing parents in one `GetBlocks` and broadcast all `new_blocks` in one
`NewBlockHashes` (each only when nonempty).  Result:
`(chain, orphan buffer, peer replies, broadcasts)`. -/
def handleBlocks (hashB : Header → H256) (c : Blockchain)
    (orphans : List (H256 × Block)) (blocks : List Block) :
    Option (Blockchain × List (H256 × Block) × List Message × List Message) :=
  (blocks.foldlM (processOneBlock hashB)
      { chain := c, orphans := orphans, missing := [], newBlocks := [], bcasts := []
        : BlocksAcc }).map
    (fun acc =>
      (acc.chain, acc.orphans,
       (if acc.missing ≠ [] then [Message.GetBlocks acc.missing] else []),
       acc.bcasts ++ (if acc.newBlocks ≠ [] then [Message.NewBlockHashes acc.newBlocks] else [])))

/-- One iteration of `worker_loop` on a decoded message: the match over
`Message`.  `NewTransactionHashes` falls into the `_ => unimplemented!()`
arm. -/
def handleMessage (hashB : Header → H256) (c : Blockchain)
    (orphans : List (H256 × Block)) (msg : Message) :
    Option (Blockchain × List (H256 × Block) × List Message × List Message) :=
  match msg with
  | Message.Ping nonce => some (c, orphans, [Message.Pong (toString nonce)], [])
  | Message.Pong _ => some (c, orphans, [], [])
  | Message.NewBlockHashes hashes =>
    some (c, orphans,
      [Message.GetBlocks (hashes.filter (fun h => ¬ mapContains h c.block_map))], [])
  | Message.GetBlocks hashes =>
    some (c, orphans,
      [Message.Blocks (hashes.filterMap (fun h => mapFind? h c.block_map))], [])
  | Message.Blocks blocks => handleBlocks hashB c orphans blocks
  | Message.NewTransactionHashes _ => none

/-! ## Association-list map lemmas -/

theorem mapFind?_cons {α : Type} (p : H256 × α) (rest : List (H256 × α)) (k : H256) :
    mapFind? k (p :: rest) = if p.1 = k then some p.2 else mapFind? k rest := by
  by_cases hp : p.1 = k <;> simp [mapFind?, List.find?, hp]

theorem mapErase_cons {α : Type} (p : H256 × α) (rest : List (H256 × α)) (k : H256) :
    mapErase k (p :: rest) = if p.1 = k then mapErase k rest else p :: mapErase k rest := by
  by_cases hp : p.1 = k <;> simp [mapErase, List.filter, hp]

theorem find_mapErase_ne {α : Type} (k k' : H256) (m : List (H256 × α)) (h : k' ≠ k) :
    mapFind? k' (mapErase k m) = mapFind? k' m := by
  induction m with
  | nil => rfl
  | cons p rest ih =>
    rw [mapErase_cons]
    by_cases hp : p.1 = k
    · rw [if_pos hp, ih, mapFind?_cons, if_neg (by rw [hp]; exact fun hc => h hc.symm)]
    · rw [if_neg hp, mapFind?_cons, mapFind?_cons, ih]

theorem find_mapInsert_self {α : Type} (k : H256) (v : α) (m : List (H256 × α)) :
    mapFind? k (mapInsert k v m) = some v := by
  rw [mapInsert, mapFind?_cons, if_pos rfl]

theorem find_mapInsert_ne {α : Type} (k k' : H256) (v : α) (m : List (H256 × α))
    (h : k' ≠ k) : mapFind? k' (mapInsert k v m) = mapFind? k' m := by
  rw [mapInsert, mapFind?_cons, if_neg (fun hc => h hc.symm), find_mapErase_ne k k' m h]

theorem mapErase_of_find_none {α : Type} (k : H256) (m : List (H256 × α))
    (h : mapFind? k m = none) : mapErase k m = m := by
  induction m with
  | nil => rfl
  | cons p rest ih =>
    rw [mapFind?_cons] at h
    by_cases hp : p.1 = k
    · rw [if_pos hp] at h; exact absurd h (by simp)
    · rw [if_neg hp] at h
      rw [mapErase_cons, if_neg hp, ih h]

theorem mapErase_mapErase {α : Type} (k : H256) (m : List (H256 × α)) :
    mapErase k (mapErase k m) = mapErase k m := by
  simp [mapErase, List.filter_filter]

theorem mapInsert_idem {α : Type} (k : H256) (v : α) (m : List (H256 × α)) :
    mapInsert k v (mapInsert k v m) = mapInsert k v m := by
  rw [mapInsert, mapInsert, mapErase_cons, if_pos rfl, mapErase_mapErase]

theorem length_mapInsert_fresh {α : Type} (k : H256) (v : α) (m : List (H256 × α))
    (h : mapFind? k m = none) : (mapInsert k v m).length = m.length + 1 := by
  simp [mapInsert, mapErase_of_find_none k m h]

/-! ## C3: the empty Merkle tree's root -/

/-- C3 (counterexample): building a Merkle tree from the empty sequence gives
root equal to the 32-byte all-zero buffer itself, which differs from the
SHA-256 hash of that buffer — so the root is *not* the hash of the zero
buffer, contrary to the claim. -/
theorem c3_counterexample :
    (MerkleTree.new sha256 ([] : List H256)).root? = some zeros32 ∧
      zeros32 ≠ sha256 zeros32 := by decide

/-- C3 (amended): building a Merkle tree from the empty sequence produces a
single-node tree holding exactly the 32-byte all-zero buffer, and `root()`
returns that zero buffer itself (unhashed). -/
theorem c3_empty_tree_root (α : Type) (hashFn : α → H256) :
    (MerkleTree.new hashFn ([] : List α)).tree = [zeros32] ∧
      (MerkleTree.new hashFn ([] : List α)).root? = some zeros32 := by
  constructor <;> simp [MerkleTree.new, MerkleTree.root?]

/-! ## C9: `proof` on trees with fewer than two leaves -/

/-- C9: for a tree built from fewer than two items, every call
`proof(index)` with `index ≤ num_leaves` hits the `height = 0` case, where
the Rust loop bound `height - 1` underflows `u32` (debug-build panic):
the call fails instead of returning a proof. -/
theorem c9_small_tree_proof_fails (α : Type) (hashFn : α → H256) (items : List α)
    (hlen : items.length < 2) (idx : Nat)
    (hidx : idx ≤ (MerkleTree.new hashFn items).num_leaves) :
    (MerkleTree.new hashFn items).proof idx = none := by
  match items with
  | [] =>
    have h0 : (MerkleTree.new hashFn ([] : List α)).num_leaves = 0 := by
      simp [MerkleTree.new]
    have hidx0 : idx = 0 := by omega
    subst hidx0
    simp [MerkleTree.new, MerkleTree.proof, heightOf, heightAux]
  | [x] =>
    have h1 : (MerkleTree.new hashFn [x]).num_leaves = 1 := by
      simp [MerkleTree.new]
    have htree : (MerkleTree.new hashFn [x]).tree = [hashFn x] := by
      simp [MerkleTree.new, merkleBuildAux]
    rw [MerkleTree.proof, if_neg (by omega), htree]
    simp [heightOf, heightAux]
  | x :: y :: rest => simp at hlen; omega

/-- C9 (witness): the concrete empty tree over digests. -/
theorem c9_witness :
    ([] : List H256).length < 2 ∧
      0 ≤ (MerkleTree.new sha256 ([] : List H256)).num_leaves ∧
      (MerkleTree.new sha256 ([] : List H256)).proof 0 = none :=
  ⟨by decide, by decide, c9_small_tree_proof_fails H256 sha256 [] (by decide) 0 (by decide)⟩

/-! ## C4: Merkle round-trip -/

def c4Items : List H256 :=
  [List.replicate 32 1, List.replicate 32 2, List.replicate 32 3, List.replicate 32 4]

def c4Tree : MerkleTree := MerkleTree.new sha256 c4Items

set_option maxRecDepth 10000 in
/-- C4 (counterexample): for the four-item sequence `c4Items` and index 0,
`proof` succeeds but `verify(root, hash(items[0]), proof(0), 0, 4)` returns
`false`: the verifier's digest context accumulates bytes across layers, so
for any tree of height ≥ 2 the recomputed value cannot match the root. -/
theorem c4_counterexample :
    (c4Tree.proof 0).isSome = true ∧
      (c4Tree.root?.bind fun r =>
        (c4Tree.proof 0).bind fun p =>
          verify r (sha256 (List.replicate 32 1)) p 0 4) = some false := by decide

/-- C4 (amended): the round-trip `verify(root, hash(items[i]), proof(i), i,
len)` holds for sequences of exactly two items (for both indices); it fails
for other lengths — a single-item tree's `proof` panics (C9), and for three
or more items `verify` returns `false` (see the counterexample). -/
theorem c4_two_leaf_roundtrip (α : Type) (hashFn : α → H256) (x y : α) :
    (MerkleTree.new hashFn [x, y]).proof 0 = some [hashFn y] ∧
      (MerkleTree.new hashFn [x, y]).proof 1 = some [hashFn x] ∧
      ((MerkleTree.new hashFn [x, y]).root?.bind fun r =>
        verify r (hashFn x) [hashFn y] 0 2) = some true ∧
      ((MerkleTree.new hashFn [x, y]).root?.bind fun r =>
        verify r (hashFn y) [hashFn x] 1 2) = some true := by
  have htree : (MerkleTree.new hashFn [x, y]).tree =
      [hashFn x, hashFn y, merkleCombine (hashFn x) (hashFn y),
       merkleCombine (hashFn x) (hashFn y)] := by
    simp [MerkleTree.new, merkleBuildAux, List.range_succ]
  have hnum : (MerkleTree.new hashFn [x, y]).num_leaves = 2 := by
    simp [MerkleTree.new]
  refine ⟨?_, ?_, ?_, ?_⟩
  · rw [MerkleTree.proof, if_neg (by omega), htree]
    simp [heightOf, heightAux, proofAux]
  · rw [MerkleTree.proof, if_neg (by omega), htree]
    simp [heightOf, heightAux, proofAux]
  · rw [MerkleTree.root?, htree]
    simp [verify, verifyAux, merkleCombine]
  · rw [MerkleTree.root?, htree]
    simp [verify, verifyAux, merkleCombine]

/-! ## C2: drained transactions and the mempool -/

/-- `Mempool::remove` is a no-op: its guard is inverted
(`if !self.tx_map.contains_key(&tx_hash)`), so it only ever erases a key
that is already absent. -/
theorem mempool_remove_noop (hashTx : SignedTransaction → H256) (mp : Mempool)
    (tx : SignedTransaction) : Mempool.remove hashTx mp tx = mp := by
  unfold Mempool.remove
  by_cases h : mapContains (hashTx tx) mp.tx_map
  · simp [h]
  · have hfind : mapFind? (hashTx tx) mp.tx_map = none := by
      cases hh : mapFind? (hashTx tx) mp.tx_map with
      | none => rfl
      | some v => exact absurd (by simp [mapContains, hh]) h
    simp [h, mapErase_of_find_none _ _ hfind]

theorem mempool_remove_foldl_noop (hashTx : SignedTransaction → H256)
    (txs : List SignedTransaction) (mp : Mempool) :
    txs.foldl (fun m t => Mempool.remove hashTx m t) mp = mp := by
  induction txs generalizing mp with
  | nil => rfl
  | cons t rest ih => simp [List.foldl, mempool_remove_noop, ih]

/-- C2: whatever the miner's unit of work does — including the case where it
drains at least 10 transactions into a candidate block — the mempool it
leaves behind equals the mempool it started from: the drained transactions
are still present, because `Mempool::remove` never removes anything. -/
theorem c2_mempool_never_drained (hashTx : SignedTransaction → H256)
    (hashB : Header → H256) (ts : Nat) (c : Blockchain) (mp : Mempool)
    (r : Blockchain × Mempool × Option Block)
    (hrun : minerStep hashTx hashB ts c mp = some r) : r.2.1 = mp := by
  unfold minerStep at hrun
  simp only [] at hrun
  cases hm : mapFind? c.tip c.block_map with
  | none => rw [hm] at hrun; exact absurd hrun (by simp)
  | some latestBlock =>
    rw [hm] at hrun
    simp only [] at hrun
    by_cases h10 : mp.tx_map.length ≥ 10
    case neg => rw [if_neg h10] at hrun; cases hrun; rfl
    case pos =>
      rw [if_pos h10] at hrun
      by_cases hne : (List.map (fun x => x.2) mp.tx_map) ≠ []
      case neg => rw [if_neg hne] at hrun; cases hrun; simp [mempool_remove_foldl_noop]
      case pos =>
        rw [if_pos hne] at hrun
        by_cases hof : latestBlock.header.nonce + 1 ≥ 4294967296
        case pos => rw [if_pos hof] at hrun; cases hrun
        case neg =>
          rw [if_neg hof] at hrun
          cases hroot : (MerkleTree.new hashTx (List.map (fun x => x.2) mp.tx_map)).root? with
          | none => rw [hroot] at hrun; cases hrun
          | some mr =>
            rw [hroot] at hrun
            simp only [] at hrun
            cases hins : Blockchain.insert hashB c
                { header := { parent := c.tip, nonce := latestBlock.header.nonce + 1,
                              difficulty := latestBlock.get_difficulty, timestamp := ts % 4294967296,
                              merkle_root := mr },
                  data := List.map (fun x => x.2) mp.tx_map } with
            | none => rw [hins] at hrun; cases hrun
            | some c2 =>
              rw [hins] at hrun
              simp only [] at hrun
              cases hrun
              simp [mempool_remove_foldl_noop]

/-- C2 (witness): a concrete run of the miner's unit of work. -/
theorem c2_witness :
    minerStep (fun _ => []) (fun _ => [0]) 0 (Blockchain.new (fun _ => [0])) ⟨[]⟩ =
      some (Blockchain.new (fun _ => [0]), ⟨[]⟩, none) ∧
      ((Blockchain.new (fun _ => [0]), (⟨[]⟩ : Mempool), (none : Option Block)) :
          Blockchain × Mempool × Option Block).2.1 = ⟨[]⟩ := by
  have h : minerStep (fun _ => []) (fun _ => [0]) 0 (Blockchain.new (fun _ => [0])) ⟨[]⟩ =
      some (Blockchain.new (fun _ => [0]), ⟨[]⟩, none) := by decide
  exact ⟨h, c2_mempool_never_drained (fun _ => []) (fun _ => [0]) 0 _ _ _ h⟩

/-! ## C10: inserting a block twice -/

/-- C10: `Blockchain::insert` is idempotent: when a block whose parent is
present (and whose hash differs from its parent field) is inserted a second
time, the resulting `block_map`, `block_heights` and tip are identical to
the state after the first insertion — so the double insertion of each
finished block (miner loop, then miner worker) leaves the chain state
unchanged. -/
theorem c10_insert_idempotent (hashB : Header → H256) (c c1 : Blockchain) (b : Block)
    (hne : hashB b.header ≠ b.header.parent)
    (h1 : c.insert hashB b = some c1) : c1.insert hashB b = some c1 := by
  unfold Blockchain.insert at h1 ⊢
  simp only [] at h1 ⊢
  cases hp : mapFind? b.header.parent c.block_heights with
  | none => rw [hp] at h1; cases h1
  | some ph =>
    rw [hp] at h1
    simp only [] at h1
    cases ht : mapFind? c.latest_block (mapInsert (hashB b.header) (ph + 1) c.block_heights) with
    | none => rw [ht] at h1; cases h1
    | some lh =>
      rw [ht] at h1
      simp only [] at h1
      cases h1
      have e1 : mapFind? b.header.parent
          (mapInsert (hashB b.header) (ph + 1) c.block_heights) = some ph := by
        rw [find_mapInsert_ne _ _ _ _ (Ne.symm hne)]; exact hp
      rw [e1]
      simp only []
      rw [mapInsert_idem]
      by_cases hc : ph + 1 > lh
      · simp only [if_pos hc]
        rw [find_mapInsert_self]
        simp only []
        rw [mapInsert_idem]
        simp [lt_irrefl]
      · simp only [if_neg hc]
        rw [ht]
        simp only []
        rw [mapInsert_idem]
        simp [if_neg hc]

def c10HashB : Header → H256 := fun h => [h.nonce % 256]

def c10Block : Block :=
  { header := { parent := genesisHash c10HashB, nonce := 1, difficulty := ones32,
                timestamp := 0, merkle_root := zeros32 },
    data := [] }

def c10Chain1 : Blockchain :=
  ((Blockchain.new c10HashB).insert c10HashB c10Block).getD (Blockchain.new c10HashB)

/-- C10 (witness): a concrete double insertion. -/
theorem c10_witness :
    c10HashB c10Block.header ≠ c10Block.header.parent ∧
      (Blockchain.new c10HashB).insert c10HashB c10Block = some c10Chain1 ∧
      c10Chain1.insert c10HashB c10Block = some c10Chain1 := by
  have h1 : (Blockchain.new c10HashB).insert c10HashB c10Block = some c10Chain1 := by decide
  exact ⟨by decide, h1, c10_insert_idempotent c10HashB _ _ c10Block (by decide) h1⟩

/-! ## C1: the miner's unit of work and proof-of-work -/

/-- Characterization of a successful `Blockchain::insert`. -/
theorem insert_some_spec (hashB : Header → H256) (c : Blockchain) (b : Block) (c' : Blockchain)
    (h : c.insert hashB b = some c') :
    ∃ ph lh, mapFind? b.header.parent c.block_heights = some ph ∧
      mapFind? c.latest_block (mapInsert (hashB b.header) (ph + 1) c.block_heights) = some lh ∧
      c' = { block_map := mapInsert (hashB b.header) b c.block_map,
             block_heights := mapInsert (hashB b.header) (ph + 1) c.block_heights,
             latest_block := if ph + 1 > lh then hashB b.header else c.latest_block } := by
  unfold Blockchain.insert at h
  simp only [] at h
  cases hp : mapFind? b.header.parent c.block_heights with
  | none => rw [hp] at h; cases h
  | some ph =>
    rw [hp] at h
    simp only [] at h
    cases ht : mapFind? c.latest_block (mapInsert (hashB b.header) (ph + 1) c.block_heights) with
    | none => rw [ht] at h; cases h
    | some lh =>
      rw [ht] at h
      simp only [] at h
      cases h
      exact ⟨ph, lh, rfl, ht, rfl⟩


/-- A successful `Blockchain::insert`, constructed from its two lookups. -/
theorem insert_eq_some (hashB : Header → H256) (c : Blockchain) (b : Block) (ph lh : Nat)
    (hp : mapFind? b.header.parent c.block_heights = some ph)
    (ht : mapFind? c.latest_block (mapInsert (hashB b.header) (ph + 1) c.block_heights) = some lh) :
    c.insert hashB b =
      some { block_map := mapInsert (hashB b.header) b c.block_map,
             block_heights := mapInsert (hashB b.header) (ph + 1) c.block_heights,
             latest_block := if ph + 1 > lh then hashB b.header else c.latest_block } := by
  unfold Blockchain.insert
  simp only []
  rw [hp]
  simp only []
  rw [ht]


/-- C1 (amended): whenever the mempool holds at least 10 transactions, the
miner's unit of work inserts the candidate block into the chain
*unconditionally* — the block is present in the chain afterwards whether or
not its hash satisfies the difficulty — and only the hand-off to the
finished-block channel is conditional on `hash ≤ difficulty`. -/
theorem c1_unconditional_insert (hashTx : SignedTransaction → H256)
    (hashB : Header → H256) (ts : Nat) (c : Blockchain) (mp : Mempool)
    (c' : Blockchain) (mp' : Mempool) (out : Option Block)
    (hrun : minerStep hashTx hashB ts c mp = some (c', mp', out))
    (hten : 10 ≤ mp.tx_map.length) :
    ∃ nb : Block, c.insert hashB nb = some c' ∧
      mapFind? (hashB nb.header) c'.block_map = some nb ∧
      out = (if leBytes (hashB nb.header) nb.get_difficulty then some nb else none) := by
  unfold minerStep at hrun
  simp only [] at hrun
  cases hm : mapFind? c.tip c.block_map with
  | none => rw [hm] at hrun; exact absurd hrun (by simp)
  | some latestBlock =>
    rw [hm] at hrun
    simp only [] at hrun
    rw [if_pos (by exact hten)] at hrun
    by_cases hne : (List.map (fun x => x.2) mp.tx_map) ≠ []
    case neg =>
      have htx : mp.tx_map = [] := List.map_eq_nil_iff.mp (not_not.mp hne)
      rw [htx] at hten
      simp at hten
    case pos =>
      rw [if_pos hne] at hrun
      by_cases hof : latestBlock.header.nonce + 1 ≥ 4294967296
      case pos => rw [if_pos hof] at hrun; cases hrun
      case neg =>
        rw [if_neg hof] at hrun
        cases hroot : (MerkleTree.new hashTx (List.map (fun x => x.2) mp.tx_map)).root? with
        | none => rw [hroot] at hrun; cases hrun
        | some mr =>
          rw [hroot] at hrun
          simp only [] at hrun
          cases hins : Blockchain.insert hashB c
              { header := { parent := c.tip, nonce := latestBlock.header.nonce + 1,
                            difficulty := latestBlock.get_difficulty, timestamp := ts % 4294967296,
                            merkle_root := mr },
                data := List.map (fun x => x.2) mp.tx_map } with
          | none => rw [hins] at hrun; cases hrun
          | some c2 =>
            rw [hins] at hrun
            simp only [] at hrun
            cases hrun
            refine ⟨_, hins, ?_, rfl⟩
            obtain ⟨ph, lh, hp, ht, hc2⟩ := insert_some_spec hashB c _ _ hins
            rw [hc2]
            exact find_mapInsert_self _ _ _

def c1TipHeader : Header :=
  { parent := ones32, nonce := 0, difficulty := zeros32, timestamp := 0, merkle_root := zeros32 }

/-- `hashHeaderModel c1TipHeader`, given as a literal (checked in the
counterexample's first conjunct). -/
def c1TipHash : H256 := [238, 71, 251, 108, 150, 139, 172, 67, 108, 110, 47, 97, 116, 108, 232, 136, 253, 228, 248, 87, 92, 19, 109, 111, 252, 176, 226, 23, 88, 169, 143, 99]

/-- A chain whose tip has an all-zero difficulty, so the next candidate's
proof-of-work check fails. -/
def c1Chain : Blockchain :=
  { block_map := [(c1TipHash, { header := c1TipHeader, data := [] })],
    block_heights := [(c1TipHash, 0)], latest_block := c1TipHash }

def c1Tx (v : Nat) : SignedTransaction :=
  { transaction := { sender := [], receiver := [], value := v },
    signature := [], public_key := [] }

/-- `hashTxModel (c1Tx v)` for `v = 0..9`, as literals (checked in the
counterexample's second conjunct). -/
def c1Keys : List H256 :=
  [[10, 136, 17, 24, 82, 9, 92, 174, 4, 83, 64, 234, 31, 11, 39, 153, 68, 178, 167, 86, 162, 19, 217, 181, 1, 7, 215, 72, 151, 113, 225, 89],
   [240, 210, 120, 234, 203, 238, 78, 234, 193, 243, 204, 117, 213, 239, 218, 141, 197, 223, 241, 41, 190, 211, 218, 154, 211, 176, 225, 31, 198, 74, 233, 16],
   [64, 29, 166, 234, 106, 97, 77, 214, 215, 115, 177, 186, 132, 201, 30, 230, 217, 129, 130, 123, 208, 189, 197, 24, 138, 162, 229, 219, 255, 186, 85, 140],
   [106, 211, 109, 63, 105, 197, 104, 75, 209, 2, 30, 235, 58, 128, 56, 37, 15, 66, 77, 202, 109, 150, 96, 13, 42, 125, 34, 16, 29, 189, 67, 109],
   [72, 185, 179, 75, 133, 26, 3, 48, 44, 2, 208, 81, 154, 27, 116, 27, 171, 219, 247, 228, 219, 171, 249, 60, 122, 127, 30, 167, 219, 5, 126, 122],
   [55, 242, 146, 190, 173, 91, 236, 51, 248, 19, 182, 211, 157, 31, 237, 59, 38, 152, 93, 24, 189, 181, 100, 5, 122, 151, 123, 247, 118, 155, 88, 123],
   [254, 251, 229, 228, 81, 78, 201, 53, 224, 199, 218, 151, 95, 250, 221, 192, 61, 153, 44, 224, 110, 235, 128, 152, 113, 2, 155, 202, 172, 70, 240, 204],
   [81, 61, 249, 146, 204, 211, 200, 47, 151, 162, 249, 33, 23, 9, 59, 245, 114, 125, 17, 169, 208, 109, 210, 89, 154, 150, 3, 246, 4, 229, 188, 162],
   [125, 186, 116, 213, 108, 86, 155, 173, 222, 52, 241, 61, 190, 129, 200, 191, 50, 148, 168, 162, 43, 103, 42, 160, 71, 70, 197, 46, 201, 166, 188, 197],
   [149, 108, 228, 223, 15, 75, 87, 106, 45, 238, 26, 148, 219, 172, 106, 16, 151, 228, 160, 98, 39, 231, 127, 67, 214, 59, 37, 14, 217, 14, 96, 163]]

def c1Mempool : Mempool := { tx_map := c1Keys.zip ((List.range 10).map c1Tx) }

/-- `hashHeaderModel` of the candidate header the miner builds from
`c1Chain` and `c1Mempool` (forced to be the inserted key by the last
conjunct of the counterexample). -/
def c1CandHash : H256 := [250, 144, 233, 87, 215, 115, 133, 39, 150, 58, 188, 178, 199, 238, 59, 236, 40, 219, 127, 199, 247, 155, 7, 198, 86, 3, 136, 120, 161, 175, 37, 104]

def c1TreeL : List H256 :=
  [[10, 136, 17, 24, 82, 9, 92, 174, 4, 83, 64, 234, 31, 11, 39, 153, 68, 178, 167, 86, 162, 19, 217, 181, 1, 7, 215, 72, 151, 113, 225, 89],
   [240, 210, 120, 234, 203, 238, 78, 234, 193, 243, 204, 117, 213, 239, 218, 141, 197, 223, 241, 41, 190, 211, 218, 154, 211, 176, 225, 31, 198, 74, 233, 16],
   [64, 29, 166, 234, 106, 97, 77, 214, 215, 115, 177, 186, 132, 201, 30, 230, 217, 129, 130, 123, 208, 189, 197, 24, 138, 162, 229, 219, 255, 186, 85, 140],
   [106, 211, 109, 63, 105, 197, 104, 75, 209, 2, 30, 235, 58, 128, 56, 37, 15, 66, 77, 202, 109, 150, 96, 13, 42, 125, 34, 16, 29, 189, 67, 109],
   [72, 185, 179, 75, 133, 26, 3, 48, 44, 2, 208, 81, 154, 27, 116, 27, 171, 219, 247, 228, 219, 171, 249, 60, 122, 127, 30, 167, 219, 5, 126, 122],
   [55, 242, 146, 190, 173, 91, 236, 51, 248, 19, 182, 211, 157, 31, 237, 59, 38, 152, 93, 24, 189, 181, 100, 5, 122, 151, 123, 247, 118, 155, 88, 123],
   [254, 251, 229, 228, 81, 78, 201, 53, 224, 199, 218, 151, 95, 250, 221, 192, 61, 153, 44, 224, 110, 235, 128, 152, 113, 2, 155, 202, 172, 70, 240, 204],
   [81, 61, 249, 146, 204, 211, 200, 47, 151, 162, 249, 33, 23, 9, 59, 245, 114, 125, 17, 169, 208, 109, 210, 89, 154, 150, 3, 246, 4, 229, 188, 162],
   [125, 186, 116, 213, 108, 86, 155, 173, 222, 52, 241, 61, 190, 129, 200, 191, 50, 148, 168, 162, 43, 103, 42, 160, 71, 70, 197, 46, 201, 166, 188, 197],
   [149, 108, 228, 223, 15, 75, 87, 106, 45, 238, 26, 148, 219, 172, 106, 16, 151, 228, 160, 98, 39, 231, 127, 67, 214, 59, 37, 14, 217, 14, 96, 163],
   [173, 104, 205, 71, 159, 108, 244, 54, 242, 182, 227, 48, 130, 125, 70, 68, 76, 111, 117, 71, 39, 185, 30, 34, 233, 13, 91, 156, 200, 90, 238, 59],
   [125, 231, 220, 252, 168, 91, 44, 238, 167, 149, 189, 22, 75, 223, 186, 106, 136, 207, 150, 157, 163, 186, 204, 22, 141, 228, 239, 52, 189, 254, 65, 184],
   [161, 171, 21, 34, 90, 111, 242, 171, 167, 39, 129, 240, 213, 150, 194, 175, 197, 18, 150, 201, 141, 214, 85, 247, 119, 226, 210, 225, 11, 148, 106, 107],
   [25, 196, 196, 225, 181, 212, 231, 68, 55, 81, 165, 34, 214, 129, 157, 149, 61, 237, 101, 74, 73, 16, 161, 204, 129, 111, 124, 96, 6, 77, 191, 251],
   [91, 205, 129, 50, 200, 242, 64, 250, 93, 202, 24, 45, 149, 240, 170, 85, 113, 169, 227, 26, 90, 175, 246, 11, 48, 117, 202, 181, 1, 107, 3, 86],
   [91, 205, 129, 50, 200, 242, 64, 250, 93, 202, 24, 45, 149, 240, 170, 85, 113, 169, 227, 26, 90, 175, 246, 11, 48, 117, 202, 181, 1, 107, 3, 86],
   [213, 35, 201, 238, 126, 33, 80, 171, 176, 155, 191, 46, 213, 125, 213, 102, 170, 11, 154, 137, 174, 212, 213, 72, 106, 90, 14, 119, 203, 5, 222, 45],
   [122, 205, 201, 104, 174, 60, 233, 176, 58, 75, 26, 8, 183, 71, 67, 90, 25, 168, 44, 193, 115, 13, 74, 222, 94, 68, 116, 68, 79, 87, 240, 159],
   [157, 4, 135, 250, 202, 231, 244, 40, 172, 6, 94, 175, 71, 202, 134, 147, 77, 43, 126, 207, 149, 219, 151, 206, 181, 179, 134, 49, 161, 45, 245, 105],
   [157, 4, 135, 250, 202, 231, 244, 40, 172, 6, 94, 175, 71, 202, 134, 147, 77, 43, 126, 207, 149, 219, 151, 206, 181, 179, 134, 49, 161, 45, 245, 105],
   [36, 38, 37, 104, 10, 19, 1, 32, 89, 117, 105, 246, 19, 10, 193, 69, 59, 38, 243, 184, 117, 65, 100, 41, 133, 176, 158, 59, 64, 63, 71, 67],
   [230, 72, 197, 200, 48, 37, 200, 94, 212, 23, 9, 40, 123, 182, 219, 12, 235, 24, 230, 196, 161, 142, 150, 89, 87, 219, 98, 115, 6, 96, 201, 156],
   [234, 238, 22, 128, 224, 47, 14, 193, 99, 116, 27, 106, 40, 162, 186, 217, 111, 182, 101, 0, 6, 7, 63, 91, 83, 147, 138, 165, 201, 149, 247, 98],
   [234, 238, 22, 128, 224, 47, 14, 193, 99, 116, 27, 106, 40, 162, 186, 217, 111, 182, 101, 0, 6, 7, 63, 91, 83, 147, 138, 165, 201, 149, 247, 98]]

def c1Root : H256 := [234, 238, 22, 128, 224, 47, 14, 193, 99, 116, 27, 106, 40, 162, 186, 217, 111, 182, 101, 0, 6, 7, 63, 91, 83, 147, 138, 165, 201, 149, 247, 98]

def c1CandHeader : Header :=
  { parent := c1TipHash, nonce := 1, difficulty := zeros32, timestamp := 0,
    merkle_root := c1Root }

def c1CandBlock : Block :=
  { header := c1CandHeader, data := (List.range 10).map c1Tx }

/-- The chain after the miner's unit of work on `c1Chain` and `c1Mempool`. -/
def c1Chain2 : Blockchain :=
  { block_map := [(c1CandHash, c1CandBlock), (c1TipHash, { header := c1TipHeader, data := [] })],
    block_heights := [(c1CandHash, 1), (c1TipHash, 0)],
    latest_block := c1CandHash }

set_option maxRecDepth 1000000 in
set_option maxHeartbeats 4000000 in
theorem c1_tx_hashes : ((List.range 10).map c1Tx).map hashTxModel = c1Keys := by decide

set_option maxRecDepth 1000000 in
set_option maxHeartbeats 4000000 in
theorem c1_tip_hash_eq : hashHeaderModel c1TipHeader = c1TipHash := by decide

set_option maxRecDepth 1000000 in
set_option maxHeartbeats 4000000 in
theorem c1_cand_hash_eq : hashHeaderModel c1CandHeader = c1CandHash := by decide

set_option maxRecDepth 1000000 in
set_option maxHeartbeats 4000000 in
theorem c1_tree_eq : merkleBuildAux 10 c1Keys 0 10 = c1TreeL := by decide

/-- The miner's unit of work on `c1Chain` and `c1Mempool`, for any block and
transaction digests that agree with the recorded literals on the concrete
inputs that occur in the run. -/
theorem c1_run (hashTx : SignedTransaction → H256) (hashB : Header → H256)
    (htx : ((List.range 10).map c1Tx).map hashTx = c1Keys)
    (hch : hashB c1CandHeader = c1CandHash) :
    minerStep hashTx hashB 0 c1Chain c1Mempool = some (c1Chain2, c1Mempool, none) := by
  have hl : (c1Mempool.tx_map.map (fun x => x.2)).map hashTx = c1Keys := htx
  have htree : MerkleTree.new hashTx (c1Mempool.tx_map.map (fun x => x.2)) =
      { tree := c1TreeL, num_leaves := 10 } := by
    have h0 : MerkleTree.new hashTx (c1Mempool.tx_map.map (fun x => x.2)) =
        { tree := merkleBuildAux 10 ((c1Mempool.tx_map.map (fun x => x.2)).map hashTx) 0 10,
          num_leaves := 10 } := rfl
    rw [h0, hl, c1_tree_eq]
  have hp : mapFind? c1CandBlock.header.parent c1Chain.block_heights = some 0 := by decide
  have ht : mapFind? c1Chain.latest_block
      (mapInsert (hashB c1CandBlock.header) (0 + 1) c1Chain.block_heights) = some 0 := by
    rw [show c1CandBlock.header = c1CandHeader from rfl, hch]
    decide
  have hins : c1Chain.insert hashB c1CandBlock = some c1Chain2 := by
    rw [insert_eq_some hashB c1Chain c1CandBlock 0 0 hp ht,
        show c1CandBlock.header = c1CandHeader from rfl, hch]
    decide
  calc minerStep hashTx hashB 0 c1Chain c1Mempool
      = (match (MerkleTree.new hashTx (c1Mempool.tx_map.map (fun x => x.2))).root? with
         | none => none
         | some mr =>
           match c1Chain.insert hashB
               { header := { parent := c1TipHash, nonce := 1, difficulty := zeros32,
                             timestamp := 0, merkle_root := mr },
                 data := (List.range 10).map c1Tx } with
           | none => none
           | some c2 =>
             some (c2,
               (c1Mempool.tx_map.map (fun x => x.2)).foldl
                 (fun m t => Mempool.remove hashTx m t) c1Mempool,
               if leBytes (hashB { parent := c1TipHash, nonce := 1, difficulty := zeros32,
                                   timestamp := 0, merkle_root := mr })
                    zeros32
               then some { header := { parent := c1TipHash, nonce := 1, difficulty := zeros32,
                                       timestamp := 0, merkle_root := mr },
                           data := (List.range 10).map c1Tx }
               else none)) := rfl
    _ = (match c1Chain.insert hashB c1CandBlock with
         | none => none
         | some c2 =>
           some (c2,
             (c1Mempool.tx_map.map (fun x => x.2)).foldl
               (fun m t => Mempool.remove hashTx m t) c1Mempool,
             if leBytes (hashB c1CandHeader) zeros32 then some c1CandBlock else none)) := by
        rw [htree,
            show ({ tree := c1TreeL, num_leaves := 10 } : MerkleTree).root? = some c1Root from
              by decide]
        rfl
    _ = some (c1Chain2, c1Mempool, none) := by
        rw [hins, hch, mempool_remove_foldl_noop hashTx _ c1Mempool]
        simp only [show leBytes c1CandHash zeros32 = false from by decide]
        rfl

set_option maxRecDepth 1000000 in
set_option maxHeartbeats 4000000 in
/-- C1 (counterexample): in this concrete unit of work the candidate's hash
does **not** satisfy the difficulty, yet after the step the candidate block
is present in `block_map` while nothing is handed to the finished-block
channel: the failing block is not discarded and the chain does not stay
unchanged.  The first two conjuncts check that the literal digests in the
state are the model's own hashes (a well-formed `HashMap` image). -/
theorem c1_counterexample :
    c1TipHash = hashHeaderModel c1TipHeader ∧
      c1Mempool.tx_map.map Prod.fst = c1Mempool.tx_map.map (fun p => hashTxModel p.2) ∧
      (c1Mempool.tx_map.map Prod.fst).Nodup ∧
      leBytes c1CandHash zeros32 = false ∧
      (minerStep hashTxModel hashHeaderModel 0 c1Chain c1Mempool).map
        (fun r => (mapContains c1CandHash r.1.block_map, r.2.2)) = some (true, none) := by
  refine ⟨c1_tip_hash_eq.symm, ?_, by decide, by decide, ?_⟩
  · have h : c1Mempool.tx_map.map (fun p => hashTxModel p.2) =
        ((List.range 10).map c1Tx).map hashTxModel := rfl
    rw [h, c1_tx_hashes]
    decide
  · rw [c1_run hashTxModel hashHeaderModel c1_tx_hashes c1_cand_hash_eq]
    decide

def c1wHashTx : SignedTransaction → H256 := fun t => [t.transaction.value]

def c1wHashB : Header → H256 := fun h => [Nat.mod h.nonce 256]

def c1wMempool : Mempool :=
  { tx_map := ((List.range 10).map c1Tx).map (fun t => (c1wHashTx t, t)) }

def c1wRes : Blockchain × Mempool × Option Block :=
  (minerStep c1wHashTx c1wHashB 0 (Blockchain.new c1wHashB) c1wMempool).getD
    (Blockchain.new c1wHashB, c1wMempool, none)

set_option maxRecDepth 1000000 in
set_option maxHeartbeats 4000000 in
/-- C1 (witness): a concrete unit of work with a 10-transaction mempool. -/
theorem c1_witness :
    10 ≤ c1wMempool.tx_map.length ∧
      ∃ nb : Block, (Blockchain.new c1wHashB).insert c1wHashB nb = some c1wRes.1 ∧
        mapFind? (c1wHashB nb.header) c1wRes.1.block_map = some nb ∧
        c1wRes.2.2 = (if leBytes (c1wHashB nb.header) nb.get_difficulty then some nb else none) :=
  ⟨by decide,
   c1_unconditional_insert c1wHashTx c1wHashB 0 (Blockchain.new c1wHashB) c1wMempool
     c1wRes.1 c1wRes.2.1 c1wRes.2.2 (by decide) (by decide)⟩

/-! ## C5 and C8: tip selection and the longest chain -/

def chainAfter (hashB : Header → H256) (bs : List Block) : Option Blockchain :=
  bs.foldlM (fun c b => c.insert hashB b) (Blockchain.new hashB)

def KeysExact (l : List H256) (hts : List (H256 × Nat)) : Prop :=
  ∀ k, (mapFind? k hts).isSome ↔ k ∈ l

def TipInv (l : List H256) (hts : List (H256 × Nat)) (tip : H256) : Prop :=
  ∃ i M, l.get? i = some tip ∧ mapFind? tip hts = some M ∧
    (∀ k ∈ l, ∀ n, mapFind? k hts = some n → n ≤ M) ∧
    (∀ j, j < i → ∀ k n, l.get? j = some k → mapFind? k hts = some n → n < M)

theorem insert_tipinv (hashB : Header → H256) (c c' : Blockchain) (b : Block) (l : List H256)
    (hkeys : KeysExact l c.block_heights)
    (hinv : TipInv l c.block_heights c.latest_block)
    (hfresh : hashB b.header ∉ l)
    (hins : c.insert hashB b = some c') :
    KeysExact (l ++ [hashB b.header]) c'.block_heights ∧
      TipInv (l ++ [hashB b.header]) c'.block_heights c'.latest_block := by
  obtain ⟨ph, lh, hp, ht, rfl⟩ := insert_some_spec hashB c b c' hins
  obtain ⟨i, M, hgi, hfM, hub, hstrict⟩ := hinv
  have htipl : c.latest_block ∈ l := List.get?_mem hgi
  have htipne : c.latest_block ≠ hashB b.header := fun he => hfresh (he ▸ htipl)
  have hlhM : lh = M := by
    rw [find_mapInsert_ne _ _ _ _ htipne, hfM] at ht
    exact (Option.some.inj ht).symm
  subst hlhM
  constructor
  · intro k
    by_cases hk : k = hashB b.header
    · subst hk
      simp [find_mapInsert_self]
    · rw [find_mapInsert_ne _ _ _ _ hk, hkeys k]
      simp [hk]
  · simp only []
    by_cases hcond : ph + 1 > lh
    · rw [if_pos hcond]
      refine ⟨l.length, ph + 1, List.get?_concat_length l _, find_mapInsert_self _ _ _, ?_, ?_⟩
      · intro k hk n hn
        rcases List.mem_append.mp hk with hkl | hkh
        · have hkne : k ≠ hashB b.header := fun he => hfresh (he ▸ hkl)
          rw [find_mapInsert_ne _ _ _ _ hkne] at hn
          exact Nat.le_of_lt (Nat.lt_of_le_of_lt (hub k hkl n hn) hcond)
        · have hkh' : k = hashB b.header := by simpa using hkh
          subst hkh'
          rw [find_mapInsert_self] at hn
          exact Nat.le_of_eq (Option.some.inj hn).symm
      · intro j hj k n hget hn
        have hjl : (l ++ [hashB b.header]).get? j = l.get? j := List.get?_append hj
        rw [hjl] at hget
        have hkl : k ∈ l := List.get?_mem hget
        have hkne : k ≠ hashB b.header := fun he => hfresh (he ▸ hkl)
        rw [find_mapInsert_ne _ _ _ _ hkne] at hn
        exact Nat.lt_of_le_of_lt (hub k hkl n hn) hcond
    · rw [if_neg hcond]
      have hil : i < l.length := (List.get?_eq_some.mp hgi).1
      refine ⟨i, lh, ?_, ?_, ?_, ?_⟩
      · rw [List.get?_append hil]; exact hgi
      · rw [find_mapInsert_ne _ _ _ _ htipne]; exact hfM
      · intro k hk n hn
        rcases List.mem_append.mp hk with hkl | hkh
        · have hkne : k ≠ hashB b.header := fun he => hfresh (he ▸ hkl)
          rw [find_mapInsert_ne _ _ _ _ hkne] at hn
          exact hub k hkl n hn
        · have hkh' : k = hashB b.header := by simpa using hkh
          subst hkh'
          rw [find_mapInsert_self] at hn
          have : n = ph + 1 := (Option.some.inj hn).symm
          subst this
          omega
      · intro j hj k n hget hn
        have hjlen : j < l.length := Nat.lt_trans hj hil
        rw [List.get?_append hjlen] at hget
        have hkl : k ∈ l := List.get?_mem hget
        have hkne : k ≠ hashB b.header := fun he => hfresh (he ▸ hkl)
        rw [find_mapInsert_ne _ _ _ _ hkne] at hn
        exact hstrict j hj k n hget hn

theorem chainFold_tipinv (hashB : Header → H256) :
    ∀ (bs : List Block) (c : Blockchain) (l : List H256) (c' : Blockchain),
      KeysExact l c.block_heights →
      TipInv l c.block_heights c.latest_block →
      (l ++ bs.map (fun b => hashB b.header)).Nodup →
      bs.foldlM (fun cc b => cc.insert hashB b) c = some c' →
      KeysExact (l ++ bs.map (fun b => hashB b.header)) c'.block_heights ∧
        TipInv (l ++ bs.map (fun b => hashB b.header)) c'.block_heights c'.latest_block := by
  intro bs
  induction bs with
  | nil =>
    intro c l c' hk hi hnd hrun
    simp only [List.foldlM_nil] at hrun
    cases hrun
    simpa using ⟨hk, hi⟩
  | cons b rest ih =>
    intro c l c' hk hi hnd hrun
    rw [List.foldlM_cons] at hrun
    cases hins : c.insert hashB b with
    | none => rw [hins] at hrun; cases hrun
    | some c1 =>
      rw [hins] at hrun
      simp only [Option.bind_eq_bind, Option.some_bind] at hrun
      have hfresh : hashB b.header ∉ l := by
        intro hmem
        have hdisj := List.disjoint_of_nodup_append hnd
        exact hdisj hmem (by simp)
      obtain ⟨hk1, hi1⟩ := insert_tipinv hashB c c1 b l hk hi hfresh hins
      have hnd1 : ((l ++ [hashB b.header]) ++ rest.map (fun x => hashB x.header)).Nodup := by
        simpa [List.append_assoc] using hnd
      have hres := ih c1 (l ++ [hashB b.header]) c' hk1 hi1 hnd1 hrun
      simpa [List.append_assoc] using hres

theorem keysExact_new (hashB : Header → H256) :
    KeysExact [genesisHash hashB] (Blockchain.new hashB).block_heights := by
  intro k
  by_cases hk : k = genesisHash hashB
  · subst hk; simp [Blockchain.new, find_mapInsert_self]
  · simp only [Blockchain.new]
    rw [find_mapInsert_ne _ _ _ _ hk]
    simp [mapFind?, hk]

theorem tipInv_new (hashB : Header → H256) :
    TipInv [genesisHash hashB] (Blockchain.new hashB).block_heights
      (Blockchain.new hashB).latest_block := by
  refine ⟨0, 0, rfl, by simp [Blockchain.new, find_mapInsert_self], ?_, ?_⟩
  · intro k hk n hn
    have hkg : k = genesisHash hashB := by simpa using hk
    subst hkg
    simp only [Blockchain.new] at hn
    rw [find_mapInsert_self] at hn
    exact Nat.le_of_eq (Option.some.inj hn).symm
  · intro j hj k n _ _
    omega

/-- C5: after any sequence of inserts (each of whose parent is present,
which is what success of the fold encodes) with pairwise-distinct block
hashes, the tip is a block of maximum stored height, and every
earlier-inserted block (genesis first, then insertion order) has strictly
smaller height — a later block of equal height never displaces the tip. -/
theorem c5_tip_selection (hashB : Header → H256) (bs : List Block) (c' : Blockchain)
    (hnd : (genesisHash hashB :: bs.map (fun b => hashB b.header)).Nodup)
    (hrun : chainAfter hashB bs = some c') :
    TipInv (genesisHash hashB :: bs.map (fun b => hashB b.header))
      c'.block_heights c'.latest_block := by
  have hres := chainFold_tipinv hashB bs (Blockchain.new hashB) [genesisHash hashB] c'
    (keysExact_new hashB) (tipInv_new hashB) (by simpa using hnd) hrun
  simpa using hres.2

structure ChainShape (hashB : Header → H256) (l : List H256) (c : Blockchain) : Prop where
  map_keys : ∀ k, (mapFind? k c.block_map).isSome ↔ k ∈ l
  height_keys : ∀ k, (mapFind? k c.block_heights).isSome ↔ k ∈ l
  no_sentinel : ones32 ∉ l
  gen_block : mapFind? (genesisHash hashB) c.block_map = some genesisBlock
  link : ∀ k b_, mapFind? k c.block_map = some b_ → k ≠ genesisHash hashB →
    ∃ hp, mapFind? b_.header.parent c.block_heights = some hp ∧
      mapFind? k c.block_heights = some (hp + 1)
  bound : ∀ k n, mapFind? k c.block_heights = some n → n < c.block_map.length
  tip_mem : c.latest_block ∈ l

theorem walkFrom_mono (m : List (H256 × Block)) :
    ∀ (f f' : Nat) (k : H256) (w : List H256), f ≤ f' →
      walkFrom m f k = some w → walkFrom m f' k = some w := by
  intro f
  induction f with
  | zero => intro f' k w _ h; cases h
  | succ f ih =>
    intro f' k w hle h
    obtain ⟨f'', rfl⟩ : ∃ f'', f' = f'' + 1 := ⟨f' - 1, by omega⟩
    rw [walkFrom] at h
    rw [walkFrom]
    by_cases hk : k = ones32
    · rw [if_pos hk] at h; rw [if_pos hk]; exact h
    · rw [if_neg hk] at h; rw [if_neg hk]
      cases hf : mapFind? k m with
      | none =>
        rw [hf] at h
        have h' : (none : Option (List H256)) = some w := h
        cases h'
      | some b_ =>
        rw [hf] at h
        have h' : Option.map (fun x => k :: x) (walkFrom m f b_.header.parent) = some w := h
        show Option.map (fun x => k :: x) (walkFrom m f'' b_.header.parent) = some w
        simp only [Option.map_eq_some'] at h' ⊢
        obtain ⟨w0, hw0, rfl⟩ := h'
        exact ⟨w0, ih f'' b_.header.parent w0 (by omega) hw0, rfl⟩

theorem walk_reaches (hashB : Header → H256) (l : List H256) (c : Blockchain)
    (hs : ChainShape hashB l c) :
    ∀ (n : Nat) (k : H256), mapFind? k c.block_heights = some n →
      ∃ w, walkFrom c.block_map (n + 2) k = some (k :: w) ∧
        (k :: w).getLast? = some (genesisHash hashB) ∧
        List.Chain' (fun a b_ => ∃ blk, mapFind? a c.block_map = some blk ∧
          blk.header.parent = b_) (k :: w) := by
  intro n
  induction n using Nat.strong_induction_on with
  | _ n ih =>
    intro k hn
    have hkl : k ∈ l := (hs.height_keys k).mp (by simp [hn])
    have hkne : k ≠ ones32 := fun he => hs.no_sentinel (he ▸ hkl)
    have hkmap : (mapFind? k c.block_map).isSome := (hs.map_keys k).mpr hkl
    cases hb : mapFind? k c.block_map with
    | none => rw [hb] at hkmap; cases hkmap
    | some bk =>
      by_cases hg : k = genesisHash hashB
      · subst hg
        have hbk : bk = genesisBlock := by
          rw [hs.gen_block] at hb; exact (Option.some.inj hb).symm
        subst hbk
        refine ⟨[], ?_, by simp, by simp⟩
        rw [walkFrom, if_neg hkne, hb]
        simp [walkFrom, genesisBlock, genesisHeader]
      · obtain ⟨hp, hpp, hpk⟩ := hs.link k bk hb hg
        have hnp : n = hp + 1 := by
          rw [hn] at hpk; exact Option.some.inj hpk
        subst hnp
        obtain ⟨w0, hw0, hlast, hchain⟩ := ih hp (by omega) bk.header.parent hpp
        refine ⟨bk.header.parent :: w0, ?_, ?_, ?_⟩
        · rw [walkFrom, if_neg hkne, hb]
          simp only []
          have hw0' : walkFrom c.block_map (hp + 1 + 1) bk.header.parent =
              some (bk.header.parent :: w0) := hw0
          rw [hw0']
          rfl
        · rw [List.getLast?_cons_cons]
          exact hlast
        · rw [List.chain'_cons]
          exact ⟨⟨bk, hb, rfl⟩, hchain⟩

theorem insert_chainShape (hashB : Header → H256) (c c' : Blockchain) (b : Block)
    (l : List H256) (hs : ChainShape hashB l c)
    (hfresh : hashB b.header ∉ l) (hsent : hashB b.header ≠ ones32)
    (hins : c.insert hashB b = some c') :
    ChainShape hashB (l ++ [hashB b.header]) c' := by
  obtain ⟨ph, lh, hp, ht, rfl⟩ := insert_some_spec hashB c b c' hins
  have hgen_mem : genesisHash hashB ∈ l :=
    (hs.map_keys _).mp (by simp [hs.gen_block])
  have hgne : genesisHash hashB ≠ hashB b.header := fun he => hfresh (he ▸ hgen_mem)
  have hparent_mem : b.header.parent ∈ l := (hs.height_keys _).mp (by simp [hp])
  have hparne : b.header.parent ≠ hashB b.header := fun he => hfresh (he ▸ hparent_mem)
  have hmfresh : mapFind? (hashB b.header) c.block_map = none := by
    cases hm : mapFind? (hashB b.header) c.block_map with
    | none => rfl
    | some v => exact absurd ((hs.map_keys _).mp (by simp [hm])) hfresh
  refine ⟨?_, ?_, ?_, ?_, ?_, ?_, ?_⟩
  · intro k
    by_cases hk : k = hashB b.header
    · subst hk; simp [find_mapInsert_self]
    · rw [find_mapInsert_ne _ _ _ _ hk, hs.map_keys k]; simp [hk]
  · intro k
    by_cases hk : k = hashB b.header
    · subst hk; simp [find_mapInsert_self]
    · rw [find_mapInsert_ne _ _ _ _ hk, hs.height_keys k]; simp [hk]
  · intro hmem
    rcases List.mem_append.mp hmem with hmem1 | hmem2
    · exact hs.no_sentinel hmem1
    · have he : ones32 = hashB b.header := by simpa using hmem2
      exact hsent he.symm
  · rw [find_mapInsert_ne _ _ _ _ hgne]; exact hs.gen_block
  · intro k bk hbk hkg
    by_cases hk : k = hashB b.header
    · subst hk
      rw [find_mapInsert_self] at hbk
      cases hbk
      refine ⟨ph, ?_, find_mapInsert_self _ _ _⟩
      rw [find_mapInsert_ne _ _ _ _ hparne]
      exact hp
    · rw [find_mapInsert_ne _ _ _ _ hk] at hbk
      obtain ⟨hp0, hpp0, hpk0⟩ := hs.link k bk hbk hkg
      have hpm : bk.header.parent ∈ l := (hs.height_keys _).mp (by simp [hpp0])
      have hpne : bk.header.parent ≠ hashB b.header := fun he => hfresh (he ▸ hpm)
      exact ⟨hp0, by rw [find_mapInsert_ne _ _ _ _ hpne]; exact hpp0,
             by rw [find_mapInsert_ne _ _ _ _ hk]; exact hpk0⟩
  · intro k n hn
    have hlen : (mapInsert (hashB b.header) b c.block_map).length = c.block_map.length + 1 :=
      length_mapInsert_fresh _ _ _ hmfresh
    rw [hlen]
    by_cases hk : k = hashB b.header
    · subst hk
      rw [find_mapInsert_self] at hn
      have : ph + 1 = n := Option.some.inj hn
      subst this
      exact Nat.succ_lt_succ (hs.bound _ _ hp)
    · rw [find_mapInsert_ne _ _ _ _ hk] at hn
      exact Nat.lt_trans (hs.bound _ _ hn) (by omega)
  · simp only []
    by_cases hcond : ph + 1 > lh
    · rw [if_pos hcond]; simp
    · rw [if_neg hcond]
      exact List.mem_append.mpr (Or.inl hs.tip_mem)

theorem chainShape_new (hashB : Header → H256) (hgs : genesisHash hashB ≠ ones32) :
    ChainShape hashB [genesisHash hashB] (Blockchain.new hashB) := by
  refine ⟨?_, ?_, ?_, ?_, ?_, ?_, ?_⟩
  · intro k
    by_cases hk : k = genesisHash hashB
    · subst hk; simp [Blockchain.new, find_mapInsert_self]
    · simp only [Blockchain.new]
      rw [find_mapInsert_ne _ _ _ _ hk]
      simp [mapFind?, hk]
  · intro k
    by_cases hk : k = genesisHash hashB
    · subst hk; simp [Blockchain.new, find_mapInsert_self]
    · simp only [Blockchain.new]
      rw [find_mapInsert_ne _ _ _ _ hk]
      simp [mapFind?, hk]
  · intro hmem
    have he : ones32 = genesisHash hashB := by simpa using hmem
    exact hgs he.symm
  · simp [Blockchain.new, find_mapInsert_self]
  · intro k bk hbk hkg
    simp only [Blockchain.new] at hbk
    by_cases hk : k = genesisHash hashB
    · exact absurd hk hkg
    · rw [find_mapInsert_ne _ _ _ _ hk] at hbk
      simp [mapFind?] at hbk
  · intro k n hn
    simp only [Blockchain.new] at hn ⊢
    by_cases hk : k = genesisHash hashB
    · subst hk
      rw [find_mapInsert_self] at hn
      have : (0 : Nat) = n := Option.some.inj hn
      subst this
      simp [mapInsert, mapErase]
    · rw [find_mapInsert_ne _ _ _ _ hk] at hn
      simp [mapFind?] at hn
  · simp [Blockchain.new]

theorem chainFold_chainShape (hashB : Header → H256) :
    ∀ (bs : List Block) (c : Blockchain) (l : List H256) (c' : Blockchain),
      ChainShape hashB l c →
      (l ++ bs.map (fun b => hashB b.header)).Nodup →
      ones32 ∉ bs.map (fun b => hashB b.header) →
      bs.foldlM (fun cc b => cc.insert hashB b) c = some c' →
      ChainShape hashB (l ++ bs.map (fun b => hashB b.header)) c' := by
  intro bs
  induction bs with
  | nil =>
    intro c l c' hsh hnd hsent hrun
    simp only [List.foldlM_nil] at hrun
    cases hrun
    simpa using hsh
  | cons b rest ih =>
    intro c l c' hsh hnd hsent hrun
    rw [List.foldlM_cons] at hrun
    cases hins : c.insert hashB b with
    | none => rw [hins] at hrun; cases hrun
    | some c1 =>
      rw [hins] at hrun
      simp only [Option.bind_eq_bind, Option.some_bind] at hrun
      have hfresh : hashB b.header ∉ l := by
        intro hmem
        exact List.disjoint_of_nodup_append hnd hmem (by simp)
      have hbne : hashB b.header ≠ ones32 := by
        intro he
        exact hsent (by simp [← he])
      have hsh1 := insert_chainShape hashB c c1 b l hsh hfresh hbne hins
      have hnd1 : ((l ++ [hashB b.header]) ++ rest.map (fun x => hashB x.header)).Nodup := by
        simpa [List.append_assoc] using hnd
      have hsent1 : ones32 ∉ rest.map (fun x => hashB x.header) := by
        intro hmem
        exact hsent (by simp [hmem])
      have hres := ih c1 (l ++ [hashB b.header]) c' hsh1 hnd1 hsent1 hrun
      simpa [List.append_assoc] using hres

/-- C8: for every chain built by inserting blocks whose parents are already
present (success of the fold), with pairwise-distinct hashes none equal to
the genesis-parent sentinel, `all_blocks_in_longest_chain()` succeeds and
returns a sequence whose first element is the genesis hash, whose last
element is `tip()`, and in which each non-first element's parent field
equals the preceding element. -/
theorem c8_longest_chain (hashB : Header → H256) (bs : List Block) (c' : Blockchain)
    (hnd : (genesisHash hashB :: bs.map (fun b => hashB b.header)).Nodup)
    (hsent : ones32 ∉ genesisHash hashB :: bs.map (fun b => hashB b.header))
    (hrun : chainAfter hashB bs = some c') :
    ∃ w, c'.all_blocks_in_longest_chain = some w ∧
      w.head? = some (genesisHash hashB) ∧
      w.getLast? = some c'.latest_block ∧
      List.Chain' (fun a b_ => ∃ blk, mapFind? b_ c'.block_map = some blk ∧
        blk.header.parent = a) w := by
  have hgs : genesisHash hashB ≠ ones32 := by
    intro he
    exact hsent (by simp [← he])
  have hsent2 : ones32 ∉ bs.map (fun b => hashB b.header) := by
    intro hm
    exact hsent (by simp [hm])
  have hsh := chainFold_chainShape hashB bs (Blockchain.new hashB) [genesisHash hashB] c'
    (chainShape_new hashB hgs) (by simpa using hnd) hsent2 hrun
  have hsh' : ChainShape hashB (genesisHash hashB :: bs.map (fun b => hashB b.header)) c' := by
    simpa using hsh
  have htiph : (mapFind? c'.latest_block c'.block_heights).isSome :=
    (hsh'.height_keys _).mpr hsh'.tip_mem
  cases hn : mapFind? c'.latest_block c'.block_heights with
  | none => rw [hn] at htiph; cases htiph
  | some n =>
    obtain ⟨w0, hw0, hlast, hchain⟩ := walk_reaches hashB _ c' hsh' n c'.latest_block hn
    have hb := hsh'.bound _ _ hn
    have hw1 : walkFrom c'.block_map (c'.block_map.length + 1) c'.latest_block =
        some (c'.latest_block :: w0) :=
      walkFrom_mono c'.block_map (n + 2) (c'.block_map.length + 1) _ _ (by omega) hw0
    refine ⟨(c'.latest_block :: w0).reverse, ?_, ?_, ?_, ?_⟩
    · rw [Blockchain.all_blocks_in_longest_chain, hw1]; rfl
    · rw [List.head?_reverse]; exact hlast
    · rw [List.getLast?_reverse]; rfl
    · rw [List.chain'_reverse]
      exact hchain

theorem insert_some_of (hashB : Header → H256) (c : Blockchain) (b : Block) (ph : Nat)
    (hp : mapFind? b.header.parent c.block_heights = some ph)
    (ht : (mapFind? c.latest_block
            (mapInsert (hashB b.header) (ph + 1) c.block_heights)).isSome) :
    ∃ c', c.insert hashB b = some c' ∧
      c'.block_map = mapInsert (hashB b.header) b c.block_map ∧
      c'.block_heights = mapInsert (hashB b.header) (ph + 1) c.block_heights ∧
      (c'.latest_block = hashB b.header ∨ c'.latest_block = c.latest_block) := by
  cases htv : mapFind? c.latest_block
      (mapInsert (hashB b.header) (ph + 1) c.block_heights) with
  | none => rw [htv] at ht; cases ht
  | some lh =>
    refine ⟨_, insert_eq_some hashB c b ph lh hp htv, rfl, rfl, ?_⟩
    by_cases hc : ph + 1 > lh
    · left; simp [hc]
    · right; simp [hc]

/-- C6 (amended): when the worker processes a `Blocks` message holding a
single block whose parent is present but which fails validation (and no
orphan waits on its hash), the block is **not** inserted — chain and orphan
buffer are unchanged and no `GetBlocks` is sent — but its hash **is**
broadcast in the batch `NewBlockHashes` (the `new_blocks.push(hash)` sits
outside the validity check). -/
theorem c6_invalid_dropped_but_announced (hashB : Header → H256) (c : Blockchain)
    (orphans : List (H256 × Block)) (b : Block) (pb : Block)
    (hnotin : mapFind? (hashB b.header) c.block_map = none)
    (hpar : mapFind? b.header.parent c.block_map = some pb)
    (hinvalid : ¬ (leBytes (hashB b.header) b.get_difficulty = true ∧
                   b.get_difficulty = pb.get_difficulty))
    (hnoorph : mapFind? (hashB b.header) orphans = none) :
    handleBlocks hashB c orphans [b] =
      some (c, orphans, [], [Message.NewBlockHashes [hashB b.header]]) := by
  unfold handleBlocks
  rw [List.foldlM_cons]
  have hstep : processOneBlock hashB
      { chain := c, orphans := orphans, missing := [], newBlocks := [], bcasts := [] } b =
      some { chain := c, orphans := orphans, missing := [],
             newBlocks := [hashB b.header], bcasts := [] } := by
    unfold processOneBlock
    simp only []
    have hpar' : mapFind? b.get_parent c.block_map = some pb := hpar
    have hcontains : mapContains b.get_parent c.block_map = true := by
      simp [mapContains, hpar']
    rw [if_neg (by simp [mapContains, hnotin])]
    rw [if_neg (by simp [hcontains])]
    rw [hpar']
    simp only []
    rw [if_neg hinvalid]
    simp only []
    rw [promoteLoop]
    rw [hnoorph]
    rfl
  rw [hstep]
  simp only [Option.bind_eq_bind, Option.some_bind, List.foldlM_nil]
  simp

/-- C7 (amended): delivering first an orphan `Cb` (parent `P` missing) and
then the valid parent `P` leaves **both** blocks in the chain, but the
broadcasts differ from the claim: the orphan's hash is broadcast already
when it is buffered, and the parent's delivery emits **two** broadcast
events — an immediate one naming only the promoted orphan's hash and a
batch one naming it twice; the parent's own hash is never broadcast. -/
theorem c7_orphan_promotion (hashB : Header → H256) (c : Blockchain) (P Cb : Block) (pb : Block)
    (n lh : Nat)
    (hCnot : mapFind? (hashB Cb.header) c.block_map = none)
    (hCpar : Cb.header.parent = hashB P.header)
    (hPnot : mapFind? (hashB P.header) c.block_map = none)
    (hPpar : mapFind? P.header.parent c.block_map = some pb)
    (hvalid : leBytes (hashB P.header) P.get_difficulty = true ∧
              P.get_difficulty = pb.get_difficulty)
    (hph : mapFind? P.header.parent c.block_heights = some n)
    (htip : mapFind? c.latest_block c.block_heights = some lh)
    (hne : hashB Cb.header ≠ hashB P.header) :
    handleBlocks hashB c [] [Cb] =
      some (c, [(hashB P.header, Cb)], [Message.GetBlocks [hashB P.header]],
            [Message.NewBlockHashes [hashB Cb.header]]) ∧
    ∃ c2, handleBlocks hashB c [(hashB P.header, Cb)] [P] =
        some (c2, [], [],
              [Message.NewBlockHashes [hashB Cb.header],
               Message.NewBlockHashes [hashB Cb.header, hashB Cb.header]]) ∧
      mapFind? (hashB P.header) c2.block_map = some P ∧
      mapFind? (hashB Cb.header) c2.block_map = some Cb := by
  constructor
  · unfold handleBlocks
    rw [List.foldlM_cons]
    have hstep : processOneBlock hashB
        { chain := c, orphans := [], missing := [], newBlocks := [], bcasts := [] } Cb =
        some { chain := c, orphans := mapInsert (hashB P.header) Cb [],
               missing := [hashB P.header], newBlocks := [hashB Cb.header], bcasts := [] } := by
      unfold processOneBlock
      simp only []
      rw [if_neg (by simp [mapContains, hCnot])]
      have hgp : Cb.get_parent = hashB P.header := hCpar
      rw [hgp]
      rw [if_pos (by simp [mapContains, hPnot])]
      rfl
    rw [hstep]
    simp only [Option.bind_eq_bind, Option.some_bind, List.foldlM_nil]
    simp [mapInsert, mapErase]
  · have ht1 : (mapFind? c.latest_block
        (mapInsert (hashB P.header) (n + 1) c.block_heights)).isSome := by
      by_cases hl : c.latest_block = hashB P.header
      · rw [hl, find_mapInsert_self]; rfl
      · rw [find_mapInsert_ne _ _ _ _ hl, htip]; rfl
    obtain ⟨c1, hins1, hm1, hh1, hl1⟩ := insert_some_of hashB c P n hph ht1
    have hph2 : mapFind? Cb.header.parent c1.block_heights = some (n + 1) := by
      rw [hCpar, hh1, find_mapInsert_self]
    have ht2 : (mapFind? c1.latest_block
        (mapInsert (hashB Cb.header) (n + 1 + 1) c1.block_heights)).isSome := by
      rcases hl1 with h1 | h1
      · rw [h1, find_mapInsert_ne _ _ _ _ (Ne.symm hne), hh1, find_mapInsert_self]; rfl
      · rw [h1]
        by_cases hlc : c.latest_block = hashB Cb.header
        · rw [hlc, find_mapInsert_self]; rfl
        · rw [find_mapInsert_ne _ _ _ _ hlc, hh1]
          by_cases hlp : c.latest_block = hashB P.header
          · rw [hlp, find_mapInsert_self]; rfl
          · rw [find_mapInsert_ne _ _ _ _ hlp, htip]; rfl
    obtain ⟨c2, hins2, hm2, hh2, hl2⟩ := insert_some_of hashB c1 Cb (n + 1) hph2 ht2
    refine ⟨c2, ?_, ?_, ?_⟩
    · unfold handleBlocks
      rw [List.foldlM_cons]
      have hfind1 : mapFind? (hashB P.header) [(hashB P.header, Cb)] = some Cb := by
        rw [mapFind?_cons]; simp
      have herase1 : mapErase (hashB P.header) [(hashB P.header, Cb)] = [] := by
        simp [mapErase, List.filter]
      have hstep : processOneBlock hashB
          { chain := c, orphans := [(hashB P.header, Cb)], missing := [], newBlocks := [],
            bcasts := [] } P =
          some { chain := c2, orphans := [], missing := [],
                 newBlocks := [hashB Cb.header, hashB Cb.header],
                 bcasts := [Message.NewBlockHashes [hashB Cb.header]] } := by
        unfold processOneBlock
        simp only []
        have hPpar' : mapFind? P.get_parent c.block_map = some pb := hPpar
        have hPcont : mapContains P.get_parent c.block_map = true := by
          simp [mapContains, hPpar']
        rw [if_neg (by simp [mapContains, hPnot])]
        rw [if_neg (by simp [hPcont])]
        rw [hPpar']
        simp only []
        rw [if_pos hvalid]
        rw [hins1]
        simp only [List.length_cons, List.length_nil]
        rw [promoteLoop]
        rw [hfind1]
        simp only []
        rw [herase1]
        rw [hins2]
        simp only []
        rw [promoteLoop]
        rfl
      rw [hstep]
      simp only [Option.bind_eq_bind, Option.some_bind, List.foldlM_nil]
      simp
    · rw [hm2, find_mapInsert_ne _ _ _ _ (Ne.symm hne), hm1, find_mapInsert_self]
    · rw [hm2, find_mapInsert_self]

/-! ## C6 and C7: concrete worker scenarios and witnesses -/

def c6Block : Block :=
  { header := { parent := genesisHash hashHeaderModel, nonce := 7, difficulty := zeros32,
                timestamp := 0, merkle_root := zeros32 },
    data := [] }

/-- `hashHeaderModel c6Block.header`, as a literal (checked in the
counterexample's first conjunct). -/
def c6BlockHash : H256 := [184, 122, 57, 70, 104, 208, 214, 254, 135, 163, 255, 241, 142, 13, 158, 52, 93, 106, 121, 208, 242, 67, 10, 176, 107, 77, 188, 5, 16, 111, 12, 255]

set_option maxRecDepth 1000000 in
set_option maxHeartbeats 4000000 in
/-- C6 (counterexample): `c6Block`'s parent (genesis) is present but the
block fails validation (difficulty differs from the parent's); the worker
does not insert it, yet broadcasts its hash in `NewBlockHashes` — contrary
to the claim that the hash is not included in any outgoing message. -/
theorem c6_counterexample :
    c6BlockHash = hashHeaderModel c6Block.header ∧
      mapContains c6Block.get_parent (Blockchain.new hashHeaderModel).block_map = true ∧
      ¬ (leBytes c6BlockHash c6Block.get_difficulty = true ∧
         c6Block.get_difficulty = genesisBlock.get_difficulty) ∧
      (handleBlocks hashHeaderModel (Blockchain.new hashHeaderModel) [] [c6Block]).map
        (fun r => (mapContains c6BlockHash r.1.block_map, r.2.2.1, r.2.2.2)) =
        some (false, [], [Message.NewBlockHashes [c6BlockHash]]) := by
  decide

def c6wHashB : Header → H256 := fun h => [Nat.mod h.nonce 256]

def c6wBlock : Block :=
  { header := { parent := genesisHash c6wHashB, nonce := 1, difficulty := zeros32,
                timestamp := 0, merkle_root := zeros32 },
    data := [] }

/-- C6 (witness): the amended theorem applied to a concrete invalid block. -/
theorem c6_witness :
    handleBlocks c6wHashB (Blockchain.new c6wHashB) [] [c6wBlock] =
      some (Blockchain.new c6wHashB, [], [],
            [Message.NewBlockHashes [c6wHashB c6wBlock.header]]) :=
  c6_invalid_dropped_but_announced c6wHashB (Blockchain.new c6wHashB) [] c6wBlock genesisBlock
    (by decide) (by decide) (by decide) rfl

def c7Parent : Block :=
  { header := { parent := genesisHash hashHeaderModel, nonce := 1, difficulty := ones32,
                timestamp := 0, merkle_root := zeros32 },
    data := [] }

/-- `hashHeaderModel c7Parent.header`, as a literal. -/
def c7ParentHash : H256 := [34, 98, 93, 159, 49, 51, 183, 54, 168, 254, 234, 223, 174, 124, 168, 62, 188, 169, 130, 6, 123, 181, 15, 97, 170, 4, 222, 219, 136, 242, 214, 210]

def c7Child : Block :=
  { header := { parent := c7ParentHash, nonce := 2, difficulty := ones32,
                timestamp := 0, merkle_root := zeros32 },
    data := [] }

/-- `hashHeaderModel c7Child.header`, as a literal. -/
def c7ChildHash : H256 := [139, 221, 92, 93, 83, 153, 90, 27, 119, 225, 31, 63, 169, 107, 247, 107, 152, 228, 223, 205, 85, 9, 108, 32, 251, 182, 186, 25, 76, 6, 234, 220]

set_option maxRecDepth 1000000 in
set_option maxHeartbeats 8000000 in
/-- C7 (counterexample): delivering the orphan child and then its (valid)
parent does leave both blocks in the chain, but no single broadcast names
both newly accepted hashes: the child's hash is broadcast when buffered,
and the parent's delivery emits two further broadcast events, an immediate
`NewBlockHashes [child]` and a batch `NewBlockHashes [child, child]`; the
parent's hash is never broadcast. -/
theorem c7_counterexample :
    c7ParentHash = hashHeaderModel c7Parent.header ∧
      c7ChildHash = hashHeaderModel c7Child.header ∧
      handleBlocks hashHeaderModel (Blockchain.new hashHeaderModel) [] [c7Child] =
        some (Blockchain.new hashHeaderModel, [(c7ParentHash, c7Child)],
              [Message.GetBlocks [c7ParentHash]],
              [Message.NewBlockHashes [c7ChildHash]]) ∧
      (handleBlocks hashHeaderModel (Blockchain.new hashHeaderModel)
          [(c7ParentHash, c7Child)] [c7Parent]).map
        (fun r => (mapContains c7ParentHash r.1.block_map,
                   mapContains c7ChildHash r.1.block_map)) = some (true, true) ∧
      (handleBlocks hashHeaderModel (Blockchain.new hashHeaderModel)
          [(c7ParentHash, c7Child)] [c7Parent]).map
        (fun r => (r.2.1, r.2.2.1, r.2.2.2)) =
        some (([] : List (H256 × Block)), ([] : List Message),
              [Message.NewBlockHashes [c7ChildHash],
               Message.NewBlockHashes [c7ChildHash, c7ChildHash]]) := by
  refine ⟨by decide, by decide, by decide, by decide, by decide⟩

def c7wHashB : Header → H256 := fun h => [Nat.mod h.nonce 256]

def c7wParent : Block :=
  { header := { parent := genesisHash c7wHashB, nonce := 1, difficulty := ones32,
                timestamp := 0, merkle_root := zeros32 },
    data := [] }

def c7wChild : Block :=
  { header := { parent := c7wHashB c7wParent.header, nonce := 2, difficulty := ones32,
                timestamp := 0, merkle_root := zeros32 },
    data := [] }

/-- C7 (witness): the amended theorem applied to a concrete orphan scenario. -/
theorem c7_witness :
    handleBlocks c7wHashB (Blockchain.new c7wHashB) [] [c7wChild] =
      some (Blockchain.new c7wHashB, [(c7wHashB c7wParent.header, c7wChild)],
            [Message.GetBlocks [c7wHashB c7wParent.header]],
            [Message.NewBlockHashes [c7wHashB c7wChild.header]]) ∧
    ∃ c2, handleBlocks c7wHashB (Blockchain.new c7wHashB)
        [(c7wHashB c7wParent.header, c7wChild)] [c7wParent] =
        some (c2, [], [],
              [Message.NewBlockHashes [c7wHashB c7wChild.header],
               Message.NewBlockHashes [c7wHashB c7wChild.header, c7wHashB c7wChild.header]]) ∧
      mapFind? (c7wHashB c7wParent.header) c2.block_map = some c7wParent ∧
      mapFind? (c7wHashB c7wChild.header) c2.block_map = some c7wChild :=
  c7_orphan_promotion c7wHashB (Blockchain.new c7wHashB) c7wParent c7wChild genesisBlock 0 0
    (by decide) (by decide) (by decide) (by decide) (by decide) (by decide) (by decide) (by decide)

def wHashB : Header → H256 := fun h => [Nat.mod h.nonce 256, 9]

def wBlock : Block :=
  { header := { parent := genesisHash wHashB, nonce := 1, difficulty := ones32,
                timestamp := 0, merkle_root := zeros32 },
    data := [] }

def wChain1 : Blockchain := (chainAfter wHashB [wBlock]).getD (Blockchain.new wHashB)

/-- C5 (witness): one concrete insert on top of genesis. -/
theorem c5_witness :
    (genesisHash wHashB :: [wBlock].map (fun b => wHashB b.header)).Nodup ∧
      chainAfter wHashB [wBlock] = some wChain1 ∧
      TipInv (genesisHash wHashB :: [wBlock].map (fun b => wHashB b.header))
        wChain1.block_heights wChain1.latest_block := by
  have hrun : chainAfter wHashB [wBlock] = some wChain1 := by decide
  exact ⟨by decide, hrun, c5_tip_selection wHashB [wBlock] wChain1 (by decide) hrun⟩

/-- C8 (witness): the longest-chain walk on the same concrete chain. -/
theorem c8_witness :
    (genesisHash wHashB :: [wBlock].map (fun b => wHashB b.header)).Nodup ∧
      ones32 ∉ genesisHash wHashB :: [wBlock].map (fun b => wHashB b.header) ∧
      ∃ w, wChain1.all_blocks_in_longest_chain = some w ∧
        w.head? = some (genesisHash wHashB) ∧
        w.getLast? = some wChain1.latest_block ∧
        List.Chain' (fun a b_ => ∃ blk, mapFind? b_ wChain1.block_map = some blk ∧
          blk.header.parent = a) w := by
  have hrun : chainAfter wHashB [wBlock] = some wChain1 := by decide
  exact ⟨by decide, by decide,
    c8_longest_chain wHashB [wBlock] wChain1 (by decide) (by decide) hrun⟩
